import Mathlib

/-!
# Verification of the graphql-ld-m mutation compiler and collaborators

A shallow embedding, in Lean 4, of the parts of the graphql-ld-m repository
that the checked claims are about:

* `MutationConverter` (GraphQL mutation AST → SPARQL UPDATE algebra),
  including its JSON-LD context resolution helpers `expandIri`,
  `getPredicateIri`, `getTypeIri`, `isRelationshipField`,
  `getInversePredicateIri`, the value conversion `parseValueNode`, and the
  skolemized-subject generator `generateUUID`;
* the error handling of `Client.mutate` / `Client.query` around the query
  engine call;
* `QueryEngineSparqlEndpoint.query` (modelled over an abstract fetch
  outcome) and its treatment of the `validateQuery` option;
* the LRU `QueryCache` (`get`/`set`/`delete`/`clear`/`cleanup` with
  size bound `maxEntries`).

GraphQL mutations are embedded after parsing: a mutation is its single root
field, given by its name and its argument list, exactly the data the
converter's AST visitor extracts.  JavaScript exceptions are embedded as
`Except` with an error record carrying the message and the optional `code`
property (plain `Error`s carry no code; the typed error classes do).
-/

namespace GLDM

/-- RDF terms as produced by the rdf-data-factory used in the source:
named nodes, literals (a plain literal carries datatype `xsd:string`),
and variables.  Blank nodes are never produced by the mutation converter. -/
inductive Term where
  | namedNode (iri : String)
  | literal (value : String) (datatype : String)
  | variable (name : String)
deriving DecidableEq, Repr

/-- A triple pattern / quad in the default graph.  Quads built with
`dataFactory.quad` and algebra patterns built with
`sparqlAlgebraFactory.createPattern` carry the same (subject, predicate,
object) data with the default graph, so one type embeds both; the source's
`quadToAlgebraPattern` is the identity on this data. -/
structure Pattern where
  s : Term
  p : Term
  o : Term
deriving DecidableEq, Repr

/-- The `DeleteInsert` algebra node: optional delete patterns, optional
insert patterns, optional WHERE basic graph pattern (kept as its pattern
list). -/
structure DeleteInsert where
  del : Option (List Pattern)
  ins : Option (List Pattern)
  whr : Option (List Pattern)
deriving DecidableEq, Repr

/-- The `CompositeUpdate` algebra node is the list of its updates. -/
abbrev CompositeUpdate := List DeleteInsert

/-- GraphQL value nodes, by `Kind`, as far as the converter inspects them. -/
inductive GqlValue where
  | str (s : String)
  | int (s : String)
  | float (s : String)
  | bool (b : Bool)
  | object (fields : List (String × GqlValue))
  | list (vals : List GqlValue)
  | null
  | enum (s : String)

/-- The `kind` tag of a GraphQL value node, used in error messages. -/
def GqlValue.kindName : GqlValue → String
  | .str _ => "StringValue"
  | .int _ => "IntValue"
  | .float _ => "FloatValue"
  | .bool _ => "BooleanValue"
  | .object _ => "ObjectValue"
  | .list _ => "ListValue"
  | .null => "NullValue"
  | .enum _ => "EnumValue"

/-- A term definition of the normalized JSON-LD context: either a bare IRI
string, or a structured form with optional `@id` and optional `@type`. -/
inductive CtxTerm where
  | iri (s : String)
  | node (id : Option String) (type : Option String)
deriving DecidableEq, Repr

/-- The raw normalized JSON-LD context (`getContextRaw()`): the `@base`
and `@vocab` entries when present, and the term definitions keyed by name. -/
structure Ctx where
  base : Option String
  vocab : Option String
  terms : List (String × CtxTerm)
deriving DecidableEq, Repr

/-- Property lookup on the raw context object. -/
def Ctx.lookup (c : Ctx) (k : String) : Option CtxTerm :=
  (c.terms.find? (fun p => p.1 = k)).map (fun p => p.2)

/-- A JavaScript error as observed by a caller: its message and the
optional `code` property.  Instances of plain `Error` carry no code;
`GraphQLLDError` subclasses and `QueryEngineError` carry one. -/
structure JsError where
  message : String
  code : Option String
deriving DecidableEq, Repr

/-- A plain `new Error(msg)` — no `code` property. -/
def plainError (message : String) : JsError := ⟨message, none⟩

/-! Character-list implementations of the string predicates the source
uses (`startsWith`, `endsWith`, `includes`, `slice`, `toLowerCase`); the
inputs are plain unicode strings, on which these agree with the
JavaScript operations. -/

/-- `s.startsWith(pre)`. -/
def strStartsWith (s pre : String) : Bool := pre.data.isPrefixOf s.data

/-- `s.endsWith(suf)`. -/
def strEndsWith (s suf : String) : Bool := suf.data.reverse.isPrefixOf s.data.reverse

/-- `s.includes(ch)` for a single character. -/
def strContainsChar (s : String) (ch : Char) : Bool := s.data.contains ch

/-- `s.slice(0, -n)`. -/
def strDropRight (s : String) (n : Nat) : String :=
  String.mk (s.data.take (s.data.length - n))

/-- `s.substring(n)` for a character count. -/
def strDrop (s : String) (n : Nat) : String := String.mk (s.data.drop n)

/-- `s.toLowerCase()`. -/
def strToLower (s : String) : String := String.mk (s.data.map Char.toLower)

/-- `MutationConverter.expandIri`: absolute `http(s)` IRIs pass through;
otherwise a truthy `@base` (dropping one trailing slash) is prefixed with
a `/` separator; otherwise the value passes through. -/
def expandIri (c : Ctx) (iri : String) : String :=
  if strStartsWith iri "http://" || strStartsWith iri "https://" then iri
  else
    match c.base with
    | none => iri
    | some base =>
      if base = "" then iri
      else
        let cleanBase := if strEndsWith base "/" then strDropRight base 1 else base
        cleanBase ++ "/" ++ iri

/-- `MutationConverter.getPredicateIri`: a bare string term maps directly;
a structured term needs a string `@id`; anything else is an error. -/
def getPredicateIri (c : Ctx) (fieldName : String) : Except JsError Term :=
  match c.lookup fieldName with
  | some (.iri s) => .ok (.namedNode s)
  | some (.node (some id) _) => .ok (.namedNode id)
  | _ =>
    .error (plainError
      s!"No IRI mapping found for predicate: {fieldName} in the JSON-LD context.")

/-- JavaScript truthiness of the first context lookup in `getTypeIri`:
`undefined` and the empty string are falsy. -/
def termFalsy : Option CtxTerm → Bool
  | none => true
  | some (.iri "") => true
  | some _ => false

/-- `typeName.charAt(0).toUpperCase() + typeName.slice(1)`. -/
def capitalize (s : String) : String :=
  match s.data with
  | [] => ""
  | ch :: rest => String.mk (ch.toUpper :: rest)

/-- `MutationConverter.getTypeIri`: exact lookup, then capitalized lookup
when the first is falsy, then the `@vocab` fallback. -/
def getTypeIri (c : Ctx) (typeName : String) : Except JsError Term :=
  match (if termFalsy (c.lookup typeName) then c.lookup (capitalize typeName)
         else c.lookup typeName) with
  | some (.iri s) => .ok (.namedNode s)
  | some (.node (some id) _) => .ok (.namedNode id)
  | _ =>
    match c.vocab with
    | some vocab => .ok (.namedNode (vocab ++ typeName))
    | none =>
      .error (plainError
        s!"No IRI mapping found for type: {typeName} in the JSON-LD context.")

/-- The hard-coded list of common relationship field names. -/
def relationshipFieldNames : List String :=
  ["product", "review", "user", "author", "owner", "creator", "parent", "child"]

/-- `MutationConverter.isRelationshipField`: a structured context term with
`@type: "@id"`, or one of the common relationship names (case-insensitive). -/
def isRelationshipField (c : Ctx) (fieldName : String) : Bool :=
  match c.lookup fieldName with
  | some (.node _ (some "@id")) => true
  | _ => relationshipFieldNames.contains (strToLower fieldName)

/-- The hard-coded bidirectional inverse table of `getInversePredicateIri`. -/
def inversePatterns : List (String × String) :=
  [("product", "reviews"), ("review", "product"),
   ("user", "posts"), ("post", "user"),
   ("author", "works"), ("work", "author")]

/-- `MutationConverter.getInversePredicateIri`: look the relationship up in
the inverse table, then resolve the inverse name in the context; lookup
failures are swallowed into `none`. -/
def getInversePredicateIri (c : Ctx) (relationshipName : String) : Option Term :=
  match inversePatterns.find? (fun p => p.1 = relationshipName) with
  | some pat => (getPredicateIri c pat.2).toOption
  | none => none

/-- The rdf:type predicate named node emitted on create. -/
def rdfTypeTerm : Term :=
  .namedNode "http://www.w3.org/1999/02/22-rdf-syntax-ns#type"

/-- The default datatype of a plain literal built by `dataFactory.literal`. -/
def xsdString : String := "http://www.w3.org/2001/XMLSchema#string"

/-- `MutationConverter.parseValueNode`: String/Int/Float/Boolean become
literals; every other value kind is an error. -/
def parseValueNode : GqlValue → Except JsError Term
  | .str s => .ok (.literal s xsdString)
  | .int s => .ok (.literal s "http://www.w3.org/2001/XMLSchema#integer")
  | .float s => .ok (.literal s "http://www.w3.org/2001/XMLSchema#double")
  | .bool b =>
    .ok (.literal (if b then "true" else "false")
      "http://www.w3.org/2001/XMLSchema#boolean")
  | v => .error (plainError s!"Unsupported GraphQL value kind: {v.kindName}")

/-- The converter's basic IRI check: it rejects exactly the four characters
`\n`, `\r`, `>`, `<`. -/
def containsIllegalIriChars (s : String) : Bool :=
  strContainsChar s '\n' || strContainsChar s '\r' || strContainsChar s '>' || strContainsChar s '<'

/-- The template of `generateUUID`. -/
def uuidTemplate : List Char := "xxxxxxxx-xxxx-4xxx-yxxx-xxxxxxxxxxxx".data

/-- One pass of the template replacement of `generateUUID`: `x` becomes a
random hex digit, `y` becomes `(r & 0x3) | 0x8` in hex, other characters
are copied.  `r : Nat → Nat` abstracts the stream of `(Math.random()*16)|0`
draws (reduced mod 16 to keep them in range). -/
def uuidGo (r : Nat → Nat) : List Char → Nat → List Char
  | [], _ => []
  | ch :: rest, i =>
    if ch = 'x' then Nat.digitChar (r i % 16) :: uuidGo r rest (i + 1)
    else if ch = 'y' then Nat.digitChar (r i % 16 % 4 + 8) :: uuidGo r rest (i + 1)
    else ch :: uuidGo r rest i

/-- `MutationConverter.generateUUID`, parameterized by the random stream. -/
def generateUUID (r : Nat → Nat) : String :=
  String.mk (uuidGo r uuidTemplate 0)

/-- Argument lookup on a GraphQL field node (`arguments.find`). -/
def findArg (args : List (String × GqlValue)) (n : String) : Option GqlValue :=
  (args.find? (fun p => p.1 = n)).map (fun p => p.2)

/-- The field-loop of `MutationConverter.handleCreate`: for each non-`id`
input field, resolve its predicate; a string-valued field that ends in `Id`
or is a relationship field emits a forward relationship triple and, when
the inverse table resolves, an inverse triple; any other field emits a
literal triple. -/
def createFieldQuads (c : Ctx) (subj : Term) :
    List (String × GqlValue) → Except JsError (List Pattern)
  | [] => .ok []
  | (fieldName, v) :: rest =>
    if fieldName = "id" then createFieldQuads c subj rest
    else
      match getPredicateIri c fieldName with
      | .error e => .error e
      | .ok predicateIri =>
        match v, strEndsWith fieldName "Id" || isRelationshipField c fieldName with
        | .str s, true =>
          let relationshipName :=
            if strEndsWith fieldName "Id" then strDropRight fieldName 2 else fieldName
          match getPredicateIri c relationshipName with
          | .error e => .error e
          | .ok relationshipPredicateIri =>
            let relatedEntityNode := Term.namedNode (expandIri c s)
            let invQuads :=
              match getInversePredicateIri c relationshipName with
              | some q => [⟨relatedEntityNode, q, subj⟩]
              | none => []
            match createFieldQuads c subj rest with
            | .error e => .error e
            | .ok restQuads =>
              .ok (⟨subj, relationshipPredicateIri, relatedEntityNode⟩ ::
                (invQuads ++ restQuads))
        | _, _ =>
          match parseValueNode v with
          | .error e => .error e
          | .ok objectValue =>
            match createFieldQuads c subj rest with
            | .error e => .error e
            | .ok restQuads => .ok (⟨subj, predicateIri, objectValue⟩ :: restQuads)

/-- The subject selection of `MutationConverter.handleCreate`: the
expanded string `input.id` after the basic IRI check when present, else a
fresh skolemized `urn:uuid:` IRI. -/
def createSubject (c : Ctx) (fields : List (String × GqlValue)) (r : Nat → Nat) :
    Except JsError Term :=
  match fields.find? (fun p => p.1 = "id") with
  | some idField =>
    match idField.2 with
    | .str iriValue =>
      if containsIllegalIriChars iriValue then
        .error (plainError
          "Invalid IRI: contains illegal characters that could cause injection")
      else .ok (.namedNode (expandIri c iriValue))
    | _ => .error (plainError "Input 'id' field must be a String for create.")
  | none => .ok (.namedNode ("urn:uuid:" ++ generateUUID r))

/-- `MutationConverter.handleCreate`: require the `input` object argument,
resolve the entity type IRI, pick the subject, then emit the type triple
followed by the field triples.  Returns the subject with the quads. -/
def handleCreate (c : Ctx) (entityName : String)
    (args : List (String × GqlValue)) (r : Nat → Nat) :
    Except JsError (Term × List Pattern) :=
  match findArg args "input" with
  | some (.object fields) =>
    match getTypeIri c entityName with
    | .error e => .error e
    | .ok entityTypeIri =>
      match createSubject c fields r with
      | .error e => .error e
      | .ok localSubject =>
        match createFieldQuads c localSubject fields with
        | .error e => .error e
        | .ok fieldQuads =>
          .ok (localSubject, ⟨localSubject, rdfTypeTerm, entityTypeIri⟩ :: fieldQuads)
  | _ =>
    .error (plainError
      s!"Create mutation for {entityName} must have an 'input' object argument.")

/-- The field-loop of `MutationConverter.handleUpdate`: reject an `id`
field; otherwise resolve the predicate, parse the new value, and emit the
delete quad, insert quad, and where pattern for the `?old_<field>`
variable.  Returns (insert, delete, where). -/
def updateFieldQuads (c : Ctx) (subject : Term) :
    List (String × GqlValue) →
    Except JsError (List Pattern × List Pattern × List Pattern)
  | [] => .ok ([], [], [])
  | (fieldName, v) :: rest =>
    if fieldName = "id" then
      .error (plainError
        "'id' field cannot be updated via input object in update mutation.")
    else
      match getPredicateIri c fieldName with
      | .error e => .error e
      | .ok predicateIri =>
        match parseValueNode v with
        | .error e => .error e
        | .ok newObjectValue =>
          let oldObjectVar := Term.variable ("old_" ++ fieldName)
          match updateFieldQuads c subject rest with
          | .error e => .error e
          | .ok (ins, del, whr) =>
            .ok (⟨subject, predicateIri, newObjectValue⟩ :: ins,
                 ⟨subject, predicateIri, oldObjectVar⟩ :: del,
                 ⟨subject, predicateIri, oldObjectVar⟩ :: whr)

/-- `MutationConverter.handleUpdate`: require the `input` object argument,
run the field loop, and reject an empty insert list. -/
def handleUpdate (c : Ctx) (subject : Term) (entityName : String)
    (args : List (String × GqlValue)) :
    Except JsError (List Pattern × List Pattern × List Pattern) :=
  match findArg args "input" with
  | some (.object fields) =>
    match updateFieldQuads c subject fields with
    | .error e => .error e
    | .ok (ins, del, whr) =>
      if ins.length = 0 then
        .error (plainError "Update operation has no fields to update in 'input'.")
      else .ok (ins, del, whr)
  | _ =>
    .error (plainError
      s!"Update mutation for {entityName} must have an 'input' object argument.")

/-- `MutationConverter.handleDelete`: one `<subject> ?p_del ?o_del` pattern
in both delete and where. -/
def handleDelete (subject : Term) : List Pattern × List Pattern :=
  ([⟨subject, .variable "p_del", .variable "o_del"⟩],
   [⟨subject, .variable "p_del", .variable "o_del"⟩])

/-- The subject extraction of `convert` for update/delete mutations: the
required string `id` argument, checked for the four illegal characters,
then expanded against the context. -/
def subjectFromIdArg (c : Ctx) (operationType : String)
    (args : List (String × GqlValue)) : Except JsError Term :=
  match findArg args "id" with
  | some (.str iriValue) =>
    if containsIllegalIriChars iriValue then
      .error (plainError
        "Invalid IRI: contains illegal characters that could cause injection")
    else .ok (.namedNode (expandIri c iriValue))
  | _ =>
    .error (plainError
      s!"{operationType} mutations require an 'id' argument of type String.")

/-- `MutationConverter.convert` on the root mutation field (name and
arguments): operation dispatch by name prefix, then the per-operation
handlers, then assembly of the `CompositeUpdate` algebra. -/
def convert (c : Ctx) (r : Nat → Nat) (mutationName : String)
    (args : List (String × GqlValue)) : Except JsError CompositeUpdate :=
  if strStartsWith mutationName "create" then
    match handleCreate c (strDrop mutationName 6) args r with
    | .error e => .error e
    | .ok (_, createQuads) =>
      if createQuads.length > 0 then .ok [⟨none, some createQuads, none⟩]
      else
        .error (plainError
          "Failed to convert mutation to SPARQL algebra. Operation type might be unhandled or input was empty.")
  else if strStartsWith mutationName "update" then
    match subjectFromIdArg c "update" args with
    | .error e => .error e
    | .ok subjectHint =>
      match handleUpdate c subjectHint (strDrop mutationName 6) args with
      | .error e => .error e
      | .ok (ins, del, whr) =>
        if ins.length > 0 || del.length > 0 then
          .ok [⟨if del.length > 0 then some del else none,
               if ins.length > 0 then some ins else none,
               some whr⟩]
        else
          .error (plainError
            "Failed to convert mutation to SPARQL algebra. Operation type might be unhandled or input was empty.")
  else if strStartsWith mutationName "delete" then
    match subjectFromIdArg c "delete" args with
    | .error e => .error e
    | .ok subjectHint =>
      let (del, whr) := handleDelete subjectHint
      .ok [⟨some del, none, some whr⟩]
  else
    .error (plainError
      s!"Unsupported mutation operation: {mutationName}. Must start with create, update, or delete.")

/-! ## Client error handling around the query engine call

`Client.mutate` and `Client.query` call the query engine inside a
`try`/`catch` that rethrows `QueryEngineError` instances unchanged and
wraps everything else.  The engine call's outcome is abstracted: it either
returns a value, throws a typed `QueryEngineError` (message and code), or
throws some other error (message only, no code). -/

/-- Outcome of the awaited query engine call. -/
inductive EngineOutcome (α : Type) where
  | ok (v : α)
  | typedErr (message code : String)
  | rawErr (message : String)
deriving DecidableEq, Repr

/-- What `Client.mutate` does with the engine call's outcome: a success
envelope, a rethrown typed error, or a returned GraphQL error entry
(message, `extensions.code`, and the preserved original error). -/
inductive MutateOutcome (α : Type) where
  | success (details : α)
  | thrown (message code : String)
  | gqlError (message code : String) (originalError : Option String)
deriving DecidableEq, Repr

/-- The `try`/`catch` around `queryEngine.update` in `Client.mutate`. -/
def clientMutateEngineCall {α : Type} : EngineOutcome α → MutateOutcome α
  | .ok v => .success v
  | .typedErr m c => .thrown m c
  | .rawErr m => .gqlError ("Mutation failed: " ++ m) "MUTATION_ERROR" (some m)

/-- What `Client.query` does with the engine call's outcome: the data (to
be reshaped) or a thrown error with message and code. -/
inductive QueryCallOutcome (α : Type) where
  | success (data : α)
  | thrown (message code : String)
deriving DecidableEq, Repr

/-- The `try`/`catch` around `queryEngine.query` in `Client.query`. -/
def clientQueryEngineCall {α : Type} : EngineOutcome α → QueryCallOutcome α
  | .ok v => .success v
  | .typedErr m c => .thrown m c
  | .rawErr m => .thrown ("Query execution failed: " ++ m) "EXECUTION_ERROR"

/-! ## QueryEngineSparqlEndpoint.query

The HTTP exchange is abstracted into a fetch outcome; the method merges
the caller's options over the defaults `{timeout: 30000, maxResults: 1000,
validateQuery: true}` and turns the outcome into a result or a
`QueryEngineError`. -/

/-- Options accepted by the engine (each field optional, as in the
TypeScript interface). -/
structure QueryEngineOptions where
  timeout : Option Nat
  maxResults : Option Nat
  validateQuery : Option Bool
deriving DecidableEq, Repr

/-- A SPARQL JSON result: the `head.vars` list and the bindings (their
row type left abstract). -/
structure SparqlQueryResult (β : Type) where
  vars : List String
  bindings : List β
deriving DecidableEq, Repr

/-- Outcome of the `fetch` call: an HTTP response (`ok` flag, status,
status text, the parsed JSON body when it passes the shape guard, and the
body text used by error messages), an abort, some other thrown `Error`,
or a thrown non-`Error` value. -/
inductive FetchOutcome (β : Type) where
  | response (ok : Bool) (status : Nat) (statusText : String)
      (jsonBody : Option (SparqlQueryResult β)) (bodyText : String)
  | abortError
  | otherError (message : String)
  | nonErrorThrown
deriving DecidableEq, Repr

/-- `QueryEngineSparqlEndpoint.query` over the abstract fetch outcome. -/
def endpointQuery {β : Type} (fetchResult : FetchOutcome β)
    (options : Option QueryEngineOptions) : Except JsError (SparqlQueryResult β) :=
  let timeout := (options.bind (fun o => o.timeout)).getD 30000
  let maxResults := (options.bind (fun o => o.maxResults)).getD 1000
  match fetchResult with
  | .response ok status statusText jsonBody bodyText =>
    if !ok then
      .error ⟨s!"SPARQL query failed: {statusText} - {bodyText}",
        some ("HTTP_" ++ toString status)⟩
    else
      match jsonBody with
      | none =>
        .error ⟨"Invalid SPARQL JSON response structure",
          some "INVALID_RESPONSE_FORMAT"⟩
      | some result =>
        if maxResults ≠ 0 ∧ result.bindings.length > maxResults then
          .ok { result with bindings := result.bindings.take maxResults }
        else .ok result
  | .abortError =>
    .error ⟨s!"Query timed out after {timeout}ms", some "TIMEOUT"⟩
  | .otherError msg =>
    .error ⟨s!"Query execution failed: {msg}", some "EXECUTION_ERROR"⟩
  | .nonErrorThrown =>
    .error ⟨"Unknown error occurred during query execution", some "UNKNOWN_ERROR"⟩

/-! ## QueryCache

An insertion-ordered association list models the JavaScript `Map`, and
`accessOrder` models the LRU bookkeeping array.  Wall-clock time is passed
explicitly to the operations that read `Date.now()`. -/

/-- A cache entry. -/
structure CacheEntry (α : Type) where
  value : α
  timestamp : Nat
  expiresAt : Nat
deriving DecidableEq, Repr

/-- The state of a `QueryCache`. -/
structure CacheState (α : Type) where
  entries : List (String × CacheEntry α)
  accessOrder : List String
  maxEntries : Nat
  defaultTtl : Nat
deriving DecidableEq, Repr

/-- The keys of the cache map, in insertion order. -/
def CacheState.keys {α : Type} (s : CacheState α) : List String :=
  s.entries.map (fun p => p.1)

/-- The cache's size (`this.cache.size`). -/
def CacheState.size {α : Type} (s : CacheState α) : Nat :=
  s.entries.length

/-- `Map.set` semantics: overwrite in place when the key exists, append
otherwise. -/
def mapSet {α : Type} (l : List (String × CacheEntry α)) (k : String)
    (e : CacheEntry α) : List (String × CacheEntry α) :=
  if l.any (fun p => p.1 = k) then
    l.map (fun p => if p.1 = k then (k, e) else p)
  else l ++ [(k, e)]

/-- `QueryCache.delete`: drop the map entry and splice the key out of the
access order (its first occurrence, per `indexOf`/`splice`). -/
def cacheDelete {α : Type} (k : String) (s : CacheState α) : CacheState α :=
  { s with
    entries := s.entries.filter (fun p => p.1 ≠ k),
    accessOrder := s.accessOrder.erase k }

/-- `QueryCache.updateAccessOrder`: splice the key out and push it last. -/
def updateAccessOrder {α : Type} (k : String) (s : CacheState α) : CacheState α :=
  { s with accessOrder := s.accessOrder.erase k ++ [k] }

/-- `QueryCache.evictOldest`: delete the key at the front of the access
order, when there is one. -/
def evictOldest {α : Type} (s : CacheState α) : CacheState α :=
  match s.accessOrder with
  | [] => s
  | oldest :: _ => cacheDelete oldest s

/-- `QueryCache.get`: miss on absent keys; expired entries are deleted and
missed; hits update the access order. -/
def cacheGet {α : Type} (now : Nat) (k : String) (s : CacheState α) :
    Option α × CacheState α :=
  match s.entries.find? (fun p => p.1 = k) with
  | none => (none, s)
  | some p =>
    if now > p.2.expiresAt then (none, cacheDelete k s)
    else (some p.2.value, updateAccessOrder k s)

/-- `QueryCache.set`: evict the least-recently-accessed entry whenever the
size has reached `maxEntries` (even when the key is already present), then
write the entry and update the access order.  A `ttl` of `0` is falsy in
`ttl || this.defaultTtl`. -/
def cacheSet {α : Type} (now : Nat) (k : String) (v : α) (ttl : Option Nat)
    (s : CacheState α) : CacheState α :=
  let s1 := if s.size ≥ s.maxEntries then evictOldest s else s
  let effTtl :=
    match ttl with
    | some n => if n = 0 then s.defaultTtl else n
    | none => s.defaultTtl
  let entry : CacheEntry α := ⟨v, now, now + max 1000 effTtl⟩
  updateAccessOrder k { s1 with entries := mapSet s1.entries k entry }

/-- `QueryCache.clear`. -/
def cacheClear {α : Type} (s : CacheState α) : CacheState α :=
  { s with entries := [], accessOrder := [] }

/-- `QueryCache.cleanup`: delete every entry already expired at `now`. -/
def cacheCleanup {α : Type} (now : Nat) (s : CacheState α) : CacheState α :=
  ((s.entries.filter (fun p => now > p.2.expiresAt)).map (fun p => p.1)).foldl
    (fun acc k => cacheDelete k acc) s

/-- The constructor: `Math.max(1, config?.maxEntries || 1000)` and
`Math.max(1000, config?.defaultTtl || 300000)` on an empty cache. -/
def cacheInit (α : Type) (maxEntries? defaultTtl? : Option Nat) : CacheState α :=
  { entries := [],
    accessOrder := [],
    maxEntries :=
      max 1 (match maxEntries? with
             | some n => if n = 0 then 1000 else n
             | none => 1000),
    defaultTtl :=
      max 1000 (match defaultTtl? with
                | some n => if n = 0 then 300000 else n
                | none => 300000) }

/-- The cache's public operations, for stating "after any operation". -/
inductive CacheOp (α : Type) where
  | get (now : Nat) (k : String)
  | set (now : Nat) (k : String) (v : α) (ttl : Option Nat)
  | del (k : String)
  | clear
  | cleanup (now : Nat)

/-- One operation applied to the state. -/
def cacheStep {α : Type} (s : CacheState α) : CacheOp α → CacheState α
  | .get now k => (cacheGet now k s).2
  | .set now k v ttl => cacheSet now k v ttl s
  | .del k => cacheDelete k s
  | .clear => cacheClear s
  | .cleanup now => cacheCleanup now s

/-- A sequence of operations applied to the state. -/
def cacheRun {α : Type} (s : CacheState α) (ops : List (CacheOp α)) : CacheState α :=
  ops.foldl cacheStep s

/-! ## Definitions used to state the claims -/

/-- The mutation's subject IRI string, as the property quantifies it: for
a create mutation the string `id` field of the `input` object; for an
update/delete mutation the string `id` argument. -/
def mutationSubjectIri (mutationName : String)
    (args : List (String × GqlValue)) : Option String :=
  if strStartsWith mutationName "create" then
    match findArg args "input" with
    | some (.object fields) =>
      match fields.find? (fun p => p.1 = "id") with
      | some pr =>
        match pr.2 with
        | .str v => some v
        | _ => none
      | none => none
    | _ => none
  else if strStartsWith mutationName "update" || strStartsWith mutationName "delete" then
    match findArg args "id" with
    | some (.str v) => some v
    | _ => none
  else none

/-- Context and arguments of the C1 counterexample: the subject IRI
contains `^`, a character of the disallowed set, and compilation
succeeds. -/
def ctxC1 : Ctx := ⟨none, none, [("Thing", .iri "http://s/Thing")]⟩

/-- Context of the C1 witness. -/
def ctxC1w : Ctx := ⟨none, none, [("Thing", .iri "http://s/Thing")]⟩

/-- Arguments of the C1 witness: the create input id contains `<`. -/
def argsC1w : List (String × GqlValue) :=
  [("input", .object [("id", .str "bad<id")])]

/-- Context of the C7 theorems. -/
def ctxC7 : Ctx :=
  ⟨none, none, [("name", .iri "http://s/name"), ("Thing", .iri "http://s/Thing")]⟩

/-- Arguments of the C7 counterexample and witness: the update input
contains an `id` key. -/
def argsC7 : List (String × GqlValue) :=
  [("id", .str "http://x/1"), ("input", .object [("id", .str "http://x/2")])]

/-- `expand_iri` as the specification words it: absolute `http(s)` values
verbatim; else, when the context defines `@base`, base without its
trailing slash, a `/`, and the value (colons and all); else the value
unchanged. -/
def expandIriSpec (c : Ctx) (v : String) : String :=
  if strStartsWith v "http://" || strStartsWith v "https://" then v
  else
    match c.base with
    | some base => (if strEndsWith base "/" then strDropRight base 1 else base) ++ "/" ++ v
    | none => v

/-- The context of the specification's own example for C5. -/
def ctxExpandExample : Ctx :=
  ⟨some "http://example.org/", none, [("ex", .iri "http://example.org/")]⟩

/-- The IRI a context term contributes, if any (`@id` of a structured
term, the string itself for a bare term). -/
def ctxTermIri : CtxTerm → Option String
  | .iri s => some s
  | .node id _ => id

/-- Everything `createFieldQuads` knows about each quad it emits: the
predicate resolves through `getPredicateIri`, the create subject is the
quad's subject or (for inverse triples) its object, and the remaining
positions are named nodes or literals. -/
def fieldQuadOk (c : Ctx) (subj : Term) (q : Pattern) : Prop :=
  (∃ n, getPredicateIri c n = .ok q.p) ∧
  (q.s = subj ∨ q.o = subj) ∧
  (q.s = subj ∨ ∃ i, q.s = .namedNode i) ∧
  (q.o = subj ∨ (∃ i, q.o = .namedNode i) ∨ ∃ lv d, q.o = .literal lv d)

/-- The characters the `urn:uuid` body may contain: lowercase hex digits
and the dash (the claim's character class `[0-9a-f-]`). -/
def uuidCharOk (ch : Char) : Prop := ch ∈ ("0123456789abcdef-").data

/-- Context of the C2 theorems: `productId` is a relationship field whose
inverse (`product` ↔ `reviews`) resolves in the context. -/
def ctxC2 : Ctx :=
  ⟨none, none,
   [("Thing", .iri "http://s/Thing"),
    ("productId", .iri "http://s/productId"),
    ("product", .iri "http://s/product"),
    ("reviews", .iri "http://s/reviews")]⟩

/-- Arguments of the C2 counterexample: an explicit id plus a relationship
field with a resolvable inverse. -/
def argsC2 : List (String × GqlValue) :=
  [("input", .object
    [("id", .str "http://x/1"), ("productId", .str "http://x/p")])]

/-- Arguments of the C2 witness: an explicit id only. -/
def argsC2w : List (String × GqlValue) :=
  [("input", .object [("id", .str "http://x/9")])]

/-- No term of the context maps to the rdf:type IRI (neither as a bare
IRI string nor through `@id`). -/
def ctxNoRdfTypePredicate (c : Ctx) : Prop :=
  ∀ pr ∈ c.terms,
    ctxTermIri pr.2 ≠ some "http://www.w3.org/1999/02/22-rdf-syntax-ns#type"

/-- How many emitted patterns carry the rdf:type predicate. -/
def countRdfType (qs : List Pattern) : Nat :=
  (qs.filter (fun q => q.p = rdfTypeTerm)).length

/-- The insert patterns of a one-element `CompositeUpdate` (the shape every
create compilation produces). -/
def insQuads : CompositeUpdate → List Pattern
  | [di] => di.ins.getD []
  | _ => []

/-- Context of the C3 counterexample: the field `foo` maps to the rdf:type
IRI itself. -/
def ctxC3 : Ctx :=
  ⟨none, none,
   [("Thing", .iri "http://s/Thing"),
    ("foo", .iri "http://www.w3.org/1999/02/22-rdf-syntax-ns#type")]⟩

/-- The variable names occurring in a pattern. -/
def patVars (p : Pattern) : List String :=
  [p.s, p.p, p.o].filterMap (fun t =>
    match t with
    | Term.variable nm => some nm
    | _ => none)

/-- Whether a variable name occurs anywhere in a pattern list. -/
def varOccurs (n : String) (ps : List Pattern) : Bool :=
  ps.any (fun p => (patVars p).contains n)

/-- Arguments of the C4 witness: a one-field update. -/
def argsC4w : List (String × GqlValue) :=
  [("id", .str "http://x/1"), ("input", .object [("name", .str "Alicia")])]

/-- The well-formedness invariant the cache maintains: no duplicate map
keys, no duplicate access-order entries, the two in membership agreement,
the size within `maxEntries`, and a positive capacity. -/
def goodCache {α : Type} (s : CacheState α) : Prop :=
  s.keys.Nodup ∧ s.accessOrder.Nodup ∧
  (∀ k ∈ s.keys, k ∈ s.accessOrder) ∧
  (∀ k ∈ s.accessOrder, k ∈ s.keys) ∧
  s.size ≤ s.maxEntries ∧ 1 ≤ s.maxEntries

/-- The entry `QueryCache.set` writes, as a function of the clock, value,
ttl argument and the cache's default ttl (restating the `expiresAt`
computation of `cacheSet` for use in proofs). -/
def cacheSetEntry {α : Type} (now : Nat) (v : α) (ttl : Option Nat)
    (dflt : Nat) : CacheEntry α :=
  ⟨v, now, now + max 1000 (match ttl with
    | some n => if n = 0 then dflt else n
    | none => dflt)⟩

/-- The two-entry cache at capacity used by the C10 witness. -/
def s0C10 : CacheState Nat :=
  ⟨[("a", ⟨1, 0, 5000⟩), ("b", ⟨2, 0, 5000⟩)], ["a", "b"], 2, 1000⟩

/-! ## Error provenance

Every error thrown inside `MutationConverter` is a plain `new Error(...)`,
so it carries no `code` property.  The following lemmas make that
observation available per function. -/

theorem getPredicateIri_error_code {c : Ctx} {f : String} {e : JsError}
    (h : getPredicateIri c f = .error e) : e.code = none := by
  unfold getPredicateIri at h
  repeat' split at h
  all_goals
    first
      | exact Except.noConfusion h
      | (injection h with h1; exact h1 ▸ rfl)

theorem getTypeIri_error_code {c : Ctx} {t : String} {e : JsError}
    (h : getTypeIri c t = .error e) : e.code = none := by
  unfold getTypeIri at h
  repeat' split at h
  all_goals
    first
      | exact Except.noConfusion h
      | (injection h with h1; exact h1 ▸ rfl)

theorem parseValueNode_error_code {v : GqlValue} {e : JsError}
    (h : parseValueNode v = .error e) : e.code = none := by
  cases v <;> simp only [parseValueNode] at h <;>
    first
      | exact Except.noConfusion h
      | (injection h with h1; exact h1 ▸ rfl)

theorem subjectFromIdArg_error_code {c : Ctx} {o : String}
    {args : List (String × GqlValue)} {e : JsError}
    (h : subjectFromIdArg c o args = .error e) : e.code = none := by
  unfold subjectFromIdArg at h
  repeat' split at h
  all_goals
    first
      | exact Except.noConfusion h
      | (injection h with h1; exact h1 ▸ rfl)

theorem createSubject_error_code {c : Ctx} {fields : List (String × GqlValue)}
    {r : Nat → Nat} {e : JsError}
    (h : createSubject c fields r = .error e) : e.code = none := by
  unfold createSubject at h
  repeat' split at h
  all_goals
    first
      | exact Except.noConfusion h
      | (injection h with h1; exact h1 ▸ rfl)

theorem createFieldQuads_error_code {c : Ctx} {subj : Term} :
    ∀ {fs : List (String × GqlValue)} {e : JsError},
      createFieldQuads c subj fs = .error e → e.code = none := by
  intro fs
  induction fs with
  | nil => intro e h; exact Except.noConfusion h
  | cons hd tl ih =>
    intro e h
    obtain ⟨fname, v⟩ := hd
    simp only [createFieldQuads] at h
    repeat' split at h
    all_goals
      first
        | exact Except.noConfusion h
        | exact ih h
        | (injection h with h1
           first
             | exact h1 ▸ rfl
             | exact h1 ▸ getPredicateIri_error_code (by assumption)
             | exact h1 ▸ parseValueNode_error_code (by assumption)
             | exact h1 ▸ ih (by assumption))

theorem handleCreate_error_code {c : Ctx} {en : String}
    {args : List (String × GqlValue)} {r : Nat → Nat} {e : JsError}
    (h : handleCreate c en args r = .error e) : e.code = none := by
  unfold handleCreate at h
  repeat' split at h
  all_goals
    first
      | exact Except.noConfusion h
      | (injection h with h1
         first
           | exact h1 ▸ rfl
           | exact h1 ▸ getTypeIri_error_code (by assumption)
           | exact h1 ▸ createSubject_error_code (by assumption)
           | exact h1 ▸ createFieldQuads_error_code (by assumption))

theorem updateFieldQuads_error_code {c : Ctx} {subj : Term} :
    ∀ {fs : List (String × GqlValue)} {e : JsError},
      updateFieldQuads c subj fs = .error e → e.code = none := by
  intro fs
  induction fs with
  | nil => intro e h; exact Except.noConfusion h
  | cons hd tl ih =>
    intro e h
    obtain ⟨fname, v⟩ := hd
    simp only [updateFieldQuads] at h
    repeat' split at h
    all_goals
      first
        | exact Except.noConfusion h
        | (injection h with h1
           first
             | exact h1 ▸ rfl
             | exact h1 ▸ getPredicateIri_error_code (by assumption)
             | exact h1 ▸ parseValueNode_error_code (by assumption)
             | exact h1 ▸ ih (by assumption))

theorem handleUpdate_error_code {c : Ctx} {subj : Term} {en : String}
    {args : List (String × GqlValue)} {e : JsError}
    (h : handleUpdate c subj en args = .error e) : e.code = none := by
  unfold handleUpdate at h
  repeat' split at h
  all_goals
    first
      | exact Except.noConfusion h
      | (injection h with h1
         first
           | exact h1 ▸ rfl
           | exact h1 ▸ updateFieldQuads_error_code (by assumption))

theorem convert_error_code {c : Ctx} {r : Nat → Nat} {n : String}
    {args : List (String × GqlValue)} {e : JsError}
    (h : convert c r n args = .error e) : e.code = none := by
  unfold convert at h
  repeat' split at h
  all_goals
    first
      | exact Except.noConfusion h
      | (injection h with h1
         first
           | exact h1 ▸ rfl
           | exact h1 ▸ handleCreate_error_code (by assumption)
           | exact h1 ▸ subjectFromIdArg_error_code (by assumption)
           | exact h1 ▸ handleUpdate_error_code (by assumption))

/-! ## Shape lemmas for the create path -/

theorem lookup_some {c : Ctx} {k : String} {ct : CtxTerm} (h : c.lookup k = some ct) :
    ∃ pr ∈ c.terms, pr.2 = ct := by
  unfold Ctx.lookup at h
  cases hf : c.terms.find? (fun p => p.1 = k) with
  | none => rw [hf] at h; exact Option.noConfusion h
  | some pr =>
    rw [hf] at h
    injection h with h1
    exact ⟨pr, List.mem_of_find?_eq_some hf, h1⟩

theorem getPredicateIri_ok_inv {c : Ctx} {n : String} {t : Term}
    (h : getPredicateIri c n = .ok t) :
    ∃ i, t = .namedNode i ∧ ∃ pr ∈ c.terms, ctxTermIri pr.2 = some i := by
  unfold getPredicateIri at h
  split at h
  · injection h with h1
    obtain ⟨pr, hm, he⟩ := lookup_some (by assumption)
    exact ⟨_, h1.symm, pr, hm, by simp [he, ctxTermIri]⟩
  · injection h with h1
    obtain ⟨pr, hm, he⟩ := lookup_some (by assumption)
    exact ⟨_, h1.symm, pr, hm, by simp [he, ctxTermIri]⟩
  · exact Except.noConfusion h

theorem getTypeIri_ok_named {c : Ctx} {n : String} {t : Term}
    (h : getTypeIri c n = .ok t) : ∃ i, t = .namedNode i := by
  unfold getTypeIri at h
  repeat' split at h
  all_goals
    first
      | exact Except.noConfusion h
      | (injection h with h1; exact ⟨_, h1.symm⟩)

theorem parseValueNode_ok_lit {v : GqlValue} {t : Term}
    (h : parseValueNode v = .ok t) : ∃ lv d, t = .literal lv d := by
  cases v <;> simp only [parseValueNode] at h <;>
    first
      | exact Except.noConfusion h
      | (injection h with h1; exact ⟨_, _, h1.symm⟩)

theorem createSubject_ok_named {c : Ctx} {fields : List (String × GqlValue)}
    {r : Nat → Nat} {t : Term} (h : createSubject c fields r = .ok t) :
    ∃ i, t = .namedNode i := by
  unfold createSubject at h
  repeat' split at h
  all_goals
    first
      | exact Except.noConfusion h
      | (injection h with h1; exact ⟨_, h1.symm⟩)

theorem subjectFromIdArg_ok_named {c : Ctx} {o : String}
    {args : List (String × GqlValue)} {t : Term}
    (h : subjectFromIdArg c o args = .ok t) : ∃ i, t = .namedNode i := by
  unfold subjectFromIdArg at h
  repeat' split at h
  all_goals
    first
      | exact Except.noConfusion h
      | (injection h with h1; exact ⟨_, h1.symm⟩)

theorem getInversePredicateIri_some {c : Ctx} {rel : String} {q : Term}
    (h : getInversePredicateIri c rel = some q) :
    ∃ n, getPredicateIri c n = .ok q := by
  unfold getInversePredicateIri at h
  split at h
  · next pat _ =>
    cases hg : getPredicateIri c pat.2 with
    | error e0 => rw [hg] at h; simp [Except.toOption] at h
    | ok t =>
      rw [hg] at h
      simp only [Except.toOption] at h
      injection h with h1
      exact ⟨pat.2, h1 ▸ hg⟩
  · exact Option.noConfusion h

/-- The literal branch of the field loop, factored out. -/
theorem litStepAux {c : Ctx} {subj pred : Term} {fname : String}
    {tl : List (String × GqlValue)} {qs : List Pattern} {obj : Term}
    (hp : getPredicateIri c fname = .ok pred)
    (hobj : ∃ lv d, obj = .literal lv d)
    (h : (match createFieldQuads c subj tl with
          | .error e => .error e
          | .ok restQuads => .ok (⟨subj, pred, obj⟩ :: restQuads)) = Except.ok qs) :
    ∃ pre restQ, createFieldQuads c subj tl = .ok restQ ∧ qs = pre ++ restQ ∧
      ∀ q ∈ pre, fieldQuadOk c subj q := by
  cases hrec : createFieldQuads c subj tl with
  | error e0 => rw [hrec] at h; exact Except.noConfusion h
  | ok restQ =>
    rw [hrec] at h
    injection h with h1
    refine ⟨[⟨subj, pred, obj⟩], restQ, rfl, h1.symm, ?_⟩
    intro q hq
    rw [List.mem_singleton] at hq
    subst hq
    exact ⟨⟨fname, hp⟩, Or.inl rfl, Or.inl rfl, Or.inr (Or.inr hobj)⟩

/-- One step of the field loop: the new quads in front all satisfy
`fieldQuadOk`, and the tail's quads follow unchanged. -/
theorem createFieldQuads_step {c : Ctx} {subj : Term} {fname : String}
    {v : GqlValue} {tl : List (String × GqlValue)} {qs : List Pattern}
    (h : createFieldQuads c subj ((fname, v) :: tl) = .ok qs) :
    ∃ pre restQ, createFieldQuads c subj tl = .ok restQ ∧ qs = pre ++ restQ ∧
      ∀ q ∈ pre, fieldQuadOk c subj q := by
  simp only [createFieldQuads] at h
  by_cases hid : fname = "id"
  · rw [if_pos hid] at h
    exact ⟨[], qs, h, rfl, by simp⟩
  · rw [if_neg hid] at h
    cases hp : getPredicateIri c fname with
    | error e0 => rw [hp] at h; exact Except.noConfusion h
    | ok pred =>
      rw [hp] at h
      cases v with
      | str s =>
        cases hrel : strEndsWith fname "Id" || isRelationshipField c fname with
        | false =>
          simp only [hrel] at h
          exact litStepAux hp ⟨s, xsdString, rfl⟩ h
        | true =>
          simp only [hrel] at h
          cases hrp : getPredicateIri c
              (if strEndsWith fname "Id" then strDropRight fname 2 else fname) with
          | error e0 => rw [hrp] at h; exact Except.noConfusion h
          | ok relPred =>
            rw [hrp] at h
            cases hrec : createFieldQuads c subj tl with
            | error e0 => rw [hrec] at h; exact Except.noConfusion h
            | ok restQ =>
              rw [hrec] at h
              cases hinv : getInversePredicateIri c
                  (if strEndsWith fname "Id" then strDropRight fname 2 else fname) with
              | none =>
                simp only [hinv, List.nil_append] at h
                injection h with h1
                refine ⟨[⟨subj, relPred, .namedNode (expandIri c s)⟩], restQ, rfl,
                  by rw [← h1]; rfl, ?_⟩
                intro q hq
                rw [List.mem_singleton] at hq
                subst hq
                exact ⟨⟨_, hrp⟩, Or.inl rfl, Or.inl rfl, Or.inr (Or.inl ⟨_, rfl⟩)⟩
              | some q' =>
                simp only [hinv, List.singleton_append] at h
                injection h with h1
                refine ⟨[⟨subj, relPred, .namedNode (expandIri c s)⟩,
                    ⟨.namedNode (expandIri c s), q', subj⟩], restQ, rfl,
                  by rw [← h1]; rfl, ?_⟩
                intro q hq
                rw [List.mem_cons] at hq
                cases hq with
                | inl hq1 =>
                  subst hq1
                  exact ⟨⟨_, hrp⟩, Or.inl rfl, Or.inl rfl, Or.inr (Or.inl ⟨_, rfl⟩)⟩
                | inr hq2 =>
                  rw [List.mem_singleton] at hq2
                  subst hq2
                  exact ⟨getInversePredicateIri_some hinv, Or.inr rfl,
                    Or.inr ⟨_, rfl⟩, Or.inl rfl⟩
      | int s => exact litStepAux hp ⟨s, _, rfl⟩ h
      | float s => exact litStepAux hp ⟨s, _, rfl⟩ h
      | bool b => exact litStepAux hp ⟨_, _, rfl⟩ h
      | object fs => exact Except.noConfusion h
      | list vs => exact Except.noConfusion h
      | null => exact Except.noConfusion h
      | enum s => exact Except.noConfusion h

/-- Every quad the field loop emits satisfies `fieldQuadOk`. -/
theorem createFieldQuads_forall {c : Ctx} {subj : Term} :
    ∀ {fs : List (String × GqlValue)} {qs : List Pattern},
      createFieldQuads c subj fs = .ok qs → ∀ q ∈ qs, fieldQuadOk c subj q := by
  intro fs
  induction fs with
  | nil =>
    intro qs h q hq
    injection h with h1
    subst h1
    simp at hq
  | cons hd tl ih =>
    intro qs h q hq
    obtain ⟨fname, v⟩ := hd
    obtain ⟨pre, restQ, hrest, hqs, hpre⟩ := createFieldQuads_step h
    subst hqs
    rcases List.mem_append.mp hq with h1 | h2
    · exact hpre q h1
    · exact ih hrest q h2

/-- Inversion of a successful `handleCreate`. -/
theorem handleCreate_inv {c : Ctx} {en : String} {args : List (String × GqlValue)}
    {r : Nat → Nat} {subj : Term} {quads : List Pattern}
    (h : handleCreate c en args r = .ok (subj, quads)) :
    ∃ fields tIri fq,
      findArg args "input" = some (.object fields) ∧
      getTypeIri c en = .ok tIri ∧
      createSubject c fields r = .ok subj ∧
      createFieldQuads c subj fields = .ok fq ∧
      quads = ⟨subj, rdfTypeTerm, tIri⟩ :: fq := by
  unfold handleCreate at h
  cases hin : findArg args "input" with
  | none => rw [hin] at h; exact Except.noConfusion h
  | some v =>
    cases v with
    | str s => rw [hin] at h; exact Except.noConfusion h
    | int s => rw [hin] at h; exact Except.noConfusion h
    | float s => rw [hin] at h; exact Except.noConfusion h
    | bool b => rw [hin] at h; exact Except.noConfusion h
    | list vs => rw [hin] at h; exact Except.noConfusion h
    | null => rw [hin] at h; exact Except.noConfusion h
    | enum s => rw [hin] at h; exact Except.noConfusion h
    | object fields =>
      simp only [hin] at h
      cases hty : getTypeIri c en with
      | error e0 => rw [hty] at h; exact Except.noConfusion h
      | ok tIri =>
        rw [hty] at h
        cases hcs : createSubject c fields r with
        | error e0 => rw [hcs] at h; exact Except.noConfusion h
        | ok ls =>
          simp only [hcs] at h
          cases hq : createFieldQuads c ls fields with
          | error e0 => rw [hq] at h; exact Except.noConfusion h
          | ok fq =>
            rw [hq] at h
            injection h with h1
            rw [Prod.mk.injEq] at h1
            obtain ⟨h2, h3⟩ := h1
            subst h2
            subst h3
            exact ⟨fields, tIri, fq, rfl, rfl, hcs, hq, rfl⟩


/-! ## Claim C1: IRI rejection -/

/-- C1 counterexample: the create-input id `http://e/a^b` contains `^`
from the disallowed set, yet `convert` builds the algebra successfully —
the converter checks only `\n`, `\r`, `<`, `>`. -/
theorem convert_accepts_caret_iri_counterexample :
    strContainsChar "http://e/a^b" '^' = true ∧
    convert ctxC1 (fun _ => 0) "createThing"
        [("input", .object [("id", .str "http://e/a^b")])] =
      .ok [⟨none,
        some [⟨.namedNode "http://e/a^b", rdfTypeTerm, .namedNode "http://s/Thing"⟩],
        none⟩] := by
  constructor
  · decide
  · rfl

/-- Inverting `mutationSubjectIri` for create mutations. -/
theorem mutationSubjectIri_create_inv {mutationName : String}
    {args : List (String × GqlValue)} {idv : String}
    (hcr : strStartsWith mutationName "create" = true)
    (hsubj : mutationSubjectIri mutationName args = some idv) :
    ∃ fields pr, findArg args "input" = some (.object fields) ∧
      fields.find? (fun p => p.1 = "id") = some pr ∧ pr.2 = .str idv := by
  unfold mutationSubjectIri at hsubj
  rw [if_pos hcr] at hsubj
  repeat' split at hsubj
  all_goals
    first
      | exact Option.noConfusion hsubj
      | (injection hsubj with h1
         subst h1
         exact ⟨_, _, by assumption, by assumption, by assumption⟩)

/-- Inverting `mutationSubjectIri` for update/delete mutations. -/
theorem mutationSubjectIri_ud_inv {mutationName : String}
    {args : List (String × GqlValue)} {idv : String}
    (hcr : strStartsWith mutationName "create" = false)
    (hsubj : mutationSubjectIri mutationName args = some idv) :
    (strStartsWith mutationName "update" = true ∨
      strStartsWith mutationName "delete" = true) ∧
    findArg args "id" = some (.str idv) := by
  unfold mutationSubjectIri at hsubj
  simp only [hcr, Bool.false_eq_true, if_false] at hsubj
  by_cases hud : (strStartsWith mutationName "update" ||
      strStartsWith mutationName "delete") = true
  · rw [if_pos hud] at hsubj
    refine ⟨by simpa using hud, ?_⟩
    repeat' split at hsubj
    all_goals
      first
        | exact Option.noConfusion hsubj
        | (injection hsubj with h1; subst h1; assumption)
  · rw [if_neg hud] at hsubj
    exact Option.noConfusion hsubj

/-- When the update/delete `id` argument has one of the four checked
characters, `subjectFromIdArg` cannot succeed. -/
theorem subjectFromIdArg_not_ok {c : Ctx} {o : String}
    {args : List (String × GqlValue)} {idv : String}
    (hid : findArg args "id" = some (.str idv))
    (hbad : containsIllegalIriChars idv = true) :
    ∀ x, subjectFromIdArg c o args ≠ .ok x := by
  intro x h
  unfold subjectFromIdArg at h
  simp only [hid] at h
  rw [if_pos hbad] at h
  exact Except.noConfusion h

/-- When the create input has a string `id` with one of the four checked
characters, `handleCreate` cannot succeed. -/
theorem handleCreate_not_ok_of_illegal_id {c : Ctx} {en : String}
    {args : List (String × GqlValue)} {r : Nat → Nat}
    {fields : List (String × GqlValue)} {pr : String × GqlValue} {idv : String}
    (hin : findArg args "input" = some (.object fields))
    (hfind : fields.find? (fun p => p.1 = "id") = some pr)
    (hstr : pr.2 = .str idv)
    (hbad : containsIllegalIriChars idv = true) :
    ∀ x, handleCreate c en args r ≠ .ok x := by
  have hsub : ∀ y, createSubject c fields r ≠ .ok y := by
    intro y hy
    unfold createSubject at hy
    simp only [hfind, hstr] at hy
    rw [if_pos hbad] at hy
    exact Except.noConfusion hy
  intro x h
  unfold handleCreate at h
  simp only [hin] at h
  cases hty : getTypeIri c en with
  | error e0 => rw [hty] at h; exact Except.noConfusion h
  | ok t =>
    simp only [hty] at h
    cases hcs : createSubject c fields r with
    | error e0 => rw [hcs] at h; exact Except.noConfusion h
    | ok y => exact hsub y hcs

/-- C1 (amended): a subject IRI string (the create input's `id` field or
the update/delete `id` argument) containing one of the four characters
`\n`, `\r`, `<`, `>` makes compilation fail — no algebra is ever
produced — and whatever error compilation raises is a plain uncoded
`Error`, not one coded `VALIDATION_ERROR`.  The remaining characters of
the disallowed set are not checked by the converter (see the
counterexample). -/
theorem convert_fails_on_illegal_subject_chars {c : Ctx} {r : Nat → Nat}
    {mutationName : String} {args : List (String × GqlValue)} {idv : String}
    (hsubj : mutationSubjectIri mutationName args = some idv)
    (hbad : containsIllegalIriChars idv = true) :
    (∀ u, convert c r mutationName args ≠ .ok u) ∧
    (∀ e, convert c r mutationName args = .error e → e.code = none) := by
  refine ⟨?_, fun e he => convert_error_code he⟩
  intro u h
  by_cases hcr : strStartsWith mutationName "create" = true
  · obtain ⟨fields, pr, hin, hfind, hstr⟩ := mutationSubjectIri_create_inv hcr hsubj
    unfold convert at h
    rw [if_pos hcr] at h
    cases hhc : handleCreate c (strDrop mutationName 6) args r with
    | error e0 => rw [hhc] at h; exact Except.noConfusion h
    | ok y => exact handleCreate_not_ok_of_illegal_id hin hfind hstr hbad y hhc
  · have hcr' : strStartsWith mutationName "create" = false := by
      cases hb : strStartsWith mutationName "create" with
      | true => exact absurd hb hcr
      | false => rfl
    obtain ⟨hud, hid⟩ := mutationSubjectIri_ud_inv hcr' hsubj
    unfold convert at h
    simp only [hcr', Bool.false_eq_true, if_false] at h
    cases hud with
    | inl hup =>
      rw [if_pos hup] at h
      cases hs : subjectFromIdArg c "update" args with
      | error e0 => rw [hs] at h; exact Except.noConfusion h
      | ok y => exact subjectFromIdArg_not_ok hid hbad y hs
    | inr hdel =>
      by_cases hup : strStartsWith mutationName "update" = true
      · rw [if_pos hup] at h
        cases hs : subjectFromIdArg c "update" args with
        | error e0 => rw [hs] at h; exact Except.noConfusion h
        | ok y => exact subjectFromIdArg_not_ok hid hbad y hs
      · rw [if_neg hup, if_pos hdel] at h
        cases hs : subjectFromIdArg c "delete" args with
        | error e0 => rw [hs] at h; exact Except.noConfusion h
        | ok y => exact subjectFromIdArg_not_ok hid hbad y hs

/-- C1 witness: a concrete create mutation whose input id contains `<`
never compiles, and the error it raises is uncoded. -/
theorem convert_fails_on_illegal_subject_chars_witness :
    convert ctxC1w (fun _ => 0) "createThing" argsC1w ≠
      .ok [⟨none, some [], none⟩] ∧
    (plainError "Invalid IRI: contains illegal characters that could cause injection").code = none :=
  ⟨(@convert_fails_on_illegal_subject_chars ctxC1w (fun _ => 0) "createThing"
      argsC1w "bad<id" (by decide) (by decide)).1 _,
   (@convert_fails_on_illegal_subject_chars ctxC1w (fun _ => 0) "createThing"
      argsC1w "bad<id" (by decide) (by decide)).2 _ (by rfl)⟩

/-! ## Claim C7: id-update rejection -/

/-- A successful update field-loop implies no input key is `id`. -/
theorem updateFieldQuads_ok_no_id {c : Ctx} {subj : Term} :
    ∀ {fs : List (String × GqlValue)} {t : List Pattern × List Pattern × List Pattern},
      updateFieldQuads c subj fs = .ok t → "id" ∉ fs.map (fun p => p.1) := by
  intro fs
  induction fs with
  | nil => intro t _ hmem; simp at hmem
  | cons hd tl ih =>
    intro t h hmem
    obtain ⟨fname, v⟩ := hd
    simp only [updateFieldQuads] at h
    by_cases hid : fname = "id"
    · rw [if_pos hid] at h; exact Except.noConfusion h
    · rw [if_neg hid] at h
      simp only [List.map_cons, List.mem_cons] at hmem
      cases hmem with
      | inl h1 => exact hid h1.symm
      | inr h2 =>
        cases hp : getPredicateIri c fname with
        | error e0 => rw [hp] at h; exact Except.noConfusion h
        | ok pred =>
          rw [hp] at h
          cases hv : parseValueNode v with
          | error e0 => rw [hv] at h; exact Except.noConfusion h
          | ok nv =>
            rw [hv] at h
            cases hrec : updateFieldQuads c subj tl with
            | error e0 => rw [hrec] at h; exact Except.noConfusion h
            | ok trio => exact ih hrec h2

/-- C7 (amended): an update mutation whose `input` object contains a key
named `id` never compiles — no update operation is emitted — but the
failure is a plain uncoded `Error` (message `'id' field cannot be updated
via input object in update mutation.` when the loop reaches that field),
not an error coded `CONVERSION_ERROR`. -/
theorem update_with_id_field_fails {c : Ctx} {r : Nat → Nat}
    {mutationName : String} {args : List (String × GqlValue)}
    {fields : List (String × GqlValue)}
    (hup : strStartsWith mutationName "update" = true)
    (hcr : strStartsWith mutationName "create" = false)
    (hin : findArg args "input" = some (.object fields))
    (hid : "id" ∈ fields.map (fun p => p.1)) :
    (∀ u, convert c r mutationName args ≠ .ok u) ∧
    (∀ e, convert c r mutationName args = .error e → e.code = none) := by
  refine ⟨?_, fun e he => convert_error_code he⟩
  intro u h
  unfold convert at h
  rw [if_neg (by simp [hcr] : ¬(strStartsWith mutationName "create" = true)),
     if_pos hup] at h
  cases hs : subjectFromIdArg c "update" args with
  | error e0 => rw [hs] at h; exact Except.noConfusion h
  | ok subj =>
    simp only [hs] at h
    cases hhu : handleUpdate c subj (strDrop mutationName 6) args with
    | error e0 => rw [hhu] at h; exact Except.noConfusion h
    | ok trio =>
      unfold handleUpdate at hhu
      simp only [hin] at hhu
      cases hq : updateFieldQuads c subj fields with
      | error e0 => rw [hq] at hhu; exact Except.noConfusion hhu
      | ok t => exact updateFieldQuads_ok_no_id hq hid

/-- C7 counterexample: the update-with-id failure is an uncoded plain
error; its `code` is not `CONVERSION_ERROR` as the claim states. -/
theorem updateId_error_uncoded_counterexample :
    convert ctxC7 (fun _ => 0) "updateThing" argsC7 =
      .error (plainError "'id' field cannot be updated via input object in update mutation.") ∧
    (plainError "'id' field cannot be updated via input object in update mutation.").code ≠
      some "CONVERSION_ERROR" :=
  ⟨by rfl, by decide⟩

/-- C7 witness: the amended theorem applied to the concrete mutation
`updateThing(id: ..., input: {id: ...})`. -/
theorem update_with_id_field_fails_witness :
    convert ctxC7 (fun _ => 0) "updateThing" argsC7 ≠ .ok [⟨none, none, none⟩] ∧
    (plainError "'id' field cannot be updated via input object in update mutation.").code = none :=
  ⟨(@update_with_id_field_fails ctxC7 (fun _ => 0) "updateThing" argsC7
      [("id", .str "http://x/2")]
      (by decide) (by decide) (by rfl) (by decide)).1 _,
   (@update_with_id_field_fails ctxC7 (fun _ => 0) "updateThing" argsC7
      [("id", .str "http://x/2")]
      (by decide) (by decide) (by rfl) (by decide)).2 _ (by rfl)⟩

/-! ## Claim C2: subject stability -/

theorem digitChar_hexMem {n : Nat} (h : n < 16) :
    Nat.digitChar n ∈ ("0123456789abcdef").data := by
  interval_cases n <;> decide

theorem uuidGo_length {r : Nat → Nat} : ∀ (t : List Char) (i : Nat),
    (uuidGo r t i).length = t.length := by
  intro t
  induction t with
  | nil => intro i; rfl
  | cons ch rest ih =>
    intro i
    simp only [uuidGo]
    split_ifs <;> simp [ih]

theorem uuidGo_chars {r : Nat → Nat} : ∀ (t : List Char) (i : Nat),
    (∀ ch ∈ t, ch = 'x' ∨ ch = 'y' ∨ ch ∈ ("0123456789abcdef-").data) →
    ∀ ch ∈ uuidGo r t i, ch ∈ ("0123456789abcdef-").data := by
  intro t
  induction t with
  | nil => intro i _ ch hch; simp [uuidGo] at hch
  | cons c0 rest ih =>
    intro i hall ch hch
    have hhex : ∀ m : Nat, m < 16 → Nat.digitChar m ∈ ("0123456789abcdef-").data := by
      intro m hm
      have h1 := digitChar_hexMem hm
      have h2 : ("0123456789abcdef-").data = ("0123456789abcdef").data ++ ['-'] := by
        decide
      rw [h2]
      exact List.mem_append_left _ h1
    simp only [uuidGo] at hch
    by_cases h1 : c0 = 'x'
    · rw [if_pos h1] at hch
      rcases List.mem_cons.mp hch with he | ht
      · rw [he]; exact hhex _ (Nat.mod_lt _ (by decide))
      · exact ih (i + 1) (fun a ha => hall a (List.mem_cons_of_mem _ ha)) ch ht
    · rw [if_neg h1] at hch
      by_cases h2 : c0 = 'y'
      · rw [if_pos h2] at hch
        rcases List.mem_cons.mp hch with he | ht
        · rw [he]
          apply hhex
          have h3 := Nat.mod_lt (r i % 16) (show 0 < 4 by decide)
          omega
        · exact ih (i + 1) (fun a ha => hall a (List.mem_cons_of_mem _ ha)) ch ht
      · rw [if_neg h2] at hch
        rcases List.mem_cons.mp hch with he | ht
        · rcases hall c0 (List.mem_cons_self _ _) with hx | hy | hm
          · exact absurd hx h1
          · exact absurd hy h2
          · rw [he]; exact hm
        · exact ih i (fun a ha => hall a (List.mem_cons_of_mem _ ha)) ch ht

/-- The generated skolem id always has the `[0-9a-f-]{36}` shape. -/
theorem generateUUID_shape (r : Nat → Nat) :
    (generateUUID r).length = 36 ∧ ∀ ch ∈ (generateUUID r).data, uuidCharOk ch := by
  constructor
  · have h1 : (generateUUID r).length = (uuidGo r uuidTemplate 0).length := rfl
    rw [h1, uuidGo_length]
    decide
  · intro ch hch
    exact uuidGo_chars uuidTemplate 0 (by decide) ch hch

/-- C2 counterexample: a create with an explicit id and a relationship
field with a resolvable inverse emits an inverse triple whose subject is
the related entity, not `expand_iri(input.id)` — so not every emitted
triple carries the create subject as its subject. -/
theorem create_subject_counterexample :
    convert ctxC2 (fun _ => 0) "createThing" argsC2 =
      .ok [⟨none, some
        [⟨.namedNode "http://x/1", rdfTypeTerm, .namedNode "http://s/Thing"⟩,
         ⟨.namedNode "http://x/1", .namedNode "http://s/product", .namedNode "http://x/p"⟩,
         ⟨.namedNode "http://x/p", .namedNode "http://s/reviews", .namedNode "http://x/1"⟩],
        none⟩] ∧
    (⟨.namedNode "http://x/p", .namedNode "http://s/reviews",
        .namedNode "http://x/1"⟩ : Pattern).s ≠
      .namedNode (expandIri ctxC2 "http://x/1") :=
  ⟨by rfl, by decide⟩

/-- C2 (amended): when `input.id` is a string, the create subject is
`expand_iri(input.id)`; when `input.id` is absent the subject is a fresh
`urn:uuid:` IRI whose body matches `[0-9a-f-]{36}`; and every emitted
triple carries that subject as its subject or — for inverse relationship
triples — as its object. -/
theorem create_subject_stability {c : Ctx} {en : String}
    {args : List (String × GqlValue)} {r : Nat → Nat} {subj : Term}
    {quads : List Pattern} {fields : List (String × GqlValue)}
    (h : handleCreate c en args r = .ok (subj, quads))
    (hin : findArg args "input" = some (.object fields)) :
    (∀ pr idv, fields.find? (fun p => p.1 = "id") = some pr → pr.2 = .str idv →
      subj = .namedNode (expandIri c idv)) ∧
    (fields.find? (fun p => p.1 = "id") = none →
      subj = .namedNode ("urn:uuid:" ++ generateUUID r) ∧
      (generateUUID r).length = 36 ∧ ∀ ch ∈ (generateUUID r).data, uuidCharOk ch) ∧
    (∀ q ∈ quads, q.s = subj ∨ q.o = subj) := by
  obtain ⟨fields', tIri, fq, hin', hty, hcs, hq, hquads⟩ := handleCreate_inv h
  rw [hin] at hin'
  injection hin' with h1
  injection h1 with h2
  subst h2
  refine ⟨?_, ?_, ?_⟩
  · intro pr idv hfind hstr
    unfold createSubject at hcs
    simp only [hfind, hstr] at hcs
    split at hcs
    · exact Except.noConfusion hcs
    · injection hcs with h3; exact h3.symm
  · intro hnone
    unfold createSubject at hcs
    simp only [hnone] at hcs
    injection hcs with h3
    exact ⟨h3.symm, (generateUUID_shape r).1, (generateUUID_shape r).2⟩
  · intro q hqm
    subst hquads
    rcases List.mem_cons.mp hqm with he | ht
    · rw [he]; exact Or.inl rfl
    · exact (createFieldQuads_forall hq q ht).2.1

/-- C2 witness: the amended theorem applied to a concrete create with an
explicit id. -/
theorem create_subject_stability_witness :
    handleCreate ctxC2 "Thing" argsC2w (fun _ => 0) =
      .ok (.namedNode "http://x/9",
        [⟨.namedNode "http://x/9", rdfTypeTerm, .namedNode "http://s/Thing"⟩]) ∧
    Term.namedNode "http://x/9" = .namedNode (expandIri ctxC2 "http://x/9") :=
  ⟨by rfl,
   (@create_subject_stability ctxC2 "Thing" argsC2w (fun _ => 0)
      (.namedNode "http://x/9")
      [⟨.namedNode "http://x/9", rdfTypeTerm, .namedNode "http://s/Thing"⟩]
      [("id", .str "http://x/9")] (by rfl) (by rfl)).1
     ("id", .str "http://x/9") "http://x/9" (by rfl) (by rfl)⟩


/-! ## Claim C3: type triple invariant -/

theorem getPredicateIri_ne_rdfType {c : Ctx} {n : String} {t : Term}
    (hctx : ctxNoRdfTypePredicate c)
    (h : getPredicateIri c n = .ok t) : t ≠ rdfTypeTerm := by
  obtain ⟨i, ht, pr, hm, hi⟩ := getPredicateIri_ok_inv h
  subst ht
  intro hcontra
  injection hcontra with h1
  exact hctx pr hm (by rw [hi, h1])

/-- C3 counterexample: with a context term mapping a field to the rdf:type
IRI, a successful create emits two triples with predicate rdf:type, not
exactly one. -/
theorem create_type_triple_counterexample :
    convert ctxC3 (fun _ => 0) "createThing"
        [("input", .object [("foo", .str "bar")])] =
      .ok [⟨none, some
        [⟨.namedNode "urn:uuid:00000000-0000-4000-8000-000000000000",
          rdfTypeTerm, .namedNode "http://s/Thing"⟩,
         ⟨.namedNode "urn:uuid:00000000-0000-4000-8000-000000000000",
          rdfTypeTerm, .literal "bar" xsdString⟩],
        none⟩] ∧
    countRdfType
      [⟨.namedNode "urn:uuid:00000000-0000-4000-8000-000000000000",
        rdfTypeTerm, .namedNode "http://s/Thing"⟩,
       ⟨.namedNode "urn:uuid:00000000-0000-4000-8000-000000000000",
        rdfTypeTerm, .literal "bar" xsdString⟩] ≠ 1 :=
  ⟨by rfl, by decide⟩

/-- C3 (amended): provided no context term maps to the rdf:type IRI,
every successful create compilation emits exactly one triple with
predicate rdf:type; it is the first emitted triple, and its object is
`type_iri` of the root field name with the `create` prefix stripped. -/
theorem create_type_triple_unique {c : Ctx} {r : Nat → Nat}
    {mutationName : String} {args : List (String × GqlValue)}
    {ops : CompositeUpdate}
    (hctx : ctxNoRdfTypePredicate c)
    (hname : strStartsWith mutationName "create" = true)
    (h : convert c r mutationName args = .ok ops) :
    countRdfType (insQuads ops) = 1 ∧
    ∀ q, (insQuads ops).head? = some q →
      q.p = rdfTypeTerm ∧ getTypeIri c (strDrop mutationName 6) = .ok q.o := by
  unfold convert at h
  rw [if_pos hname] at h
  cases hhc : handleCreate c (strDrop mutationName 6) args r with
  | error e0 => rw [hhc] at h; exact Except.noConfusion h
  | ok y =>
    obtain ⟨subj, quads⟩ := y
    obtain ⟨fields, tIri, fq, hin, hty, hcs, hq, hquads⟩ := handleCreate_inv hhc
    subst hquads
    simp only [hhc] at h
    rw [if_pos (by simp)] at h
    injection h with h1
    subst h1
    have hfil : fq.filter (fun q => decide (q.p = rdfTypeTerm)) = [] := by
      rw [List.filter_eq_nil_iff]
      intro q hqm
      obtain ⟨n, hn⟩ := (createFieldQuads_forall hq q hqm).1
      simpa using getPredicateIri_ne_rdfType hctx hn
    constructor
    · simp [insQuads, countRdfType, List.filter_cons, hfil]
    · intro q hh
      simp only [insQuads, Option.getD, List.head?] at hh
      injection hh with h2
      subst h2
      exact ⟨rfl, hty⟩

/-- C3 witness: the amended theorem applied to the concrete create of the
C2 context (which maps no term to rdf:type). -/
theorem create_type_triple_unique_witness :
    countRdfType (insQuads [⟨none, some
      [⟨.namedNode "http://x/1", rdfTypeTerm, .namedNode "http://s/Thing"⟩,
       ⟨.namedNode "http://x/1", .namedNode "http://s/product", .namedNode "http://x/p"⟩,
       ⟨.namedNode "http://x/p", .namedNode "http://s/reviews", .namedNode "http://x/1"⟩],
      none⟩]) = 1 :=
  (@create_type_triple_unique ctxC2 (fun _ => 0) "createThing" argsC2
    [⟨none, some
      [⟨.namedNode "http://x/1", rdfTypeTerm, .namedNode "http://s/Thing"⟩,
       ⟨.namedNode "http://x/1", .namedNode "http://s/product", .namedNode "http://x/p"⟩,
       ⟨.namedNode "http://x/p", .namedNode "http://s/reviews", .namedNode "http://x/1"⟩],
      none⟩]
    (by unfold ctxNoRdfTypePredicate; decide) (by decide) (by rfl)).1


/-! ## Claim C6: relationship and inverse triples on create -/

/-- If a non-`id` string field that is (or strips to) a relationship is in
the processed field list, the field loop emits its forward triple, and the
inverse triple whenever the inverse table resolves. -/
theorem createFieldQuads_rel_mem {c : Ctx} {subj : Term} :
    ∀ {fs : List (String × GqlValue)} {qs : List Pattern},
      createFieldQuads c subj fs = .ok qs →
      ∀ {fname s : String},
        (fname, GqlValue.str s) ∈ fs → fname ≠ "id" →
        (strEndsWith fname "Id" || isRelationshipField c fname) = true →
        ∃ relPred,
          getPredicateIri c
            (if strEndsWith fname "Id" then strDropRight fname 2 else fname) =
            .ok relPred ∧
          (⟨subj, relPred, .namedNode (expandIri c s)⟩ : Pattern) ∈ qs ∧
          ∀ q', getInversePredicateIri c
              (if strEndsWith fname "Id" then strDropRight fname 2 else fname) =
              some q' →
            (⟨.namedNode (expandIri c s), q', subj⟩ : Pattern) ∈ qs := by
  intro fs
  induction fs with
  | nil => intro qs h fname s hmem; simp at hmem
  | cons hd tl ih =>
    intro qs h fname s hmem hid hrel
    rcases List.mem_cons.mp hmem with he | ht
    · subst he
      simp only [createFieldQuads] at h
      rw [if_neg hid] at h
      cases hp : getPredicateIri c fname with
      | error e0 => rw [hp] at h; exact Except.noConfusion h
      | ok pred =>
        rw [hp] at h
        simp only [hrel] at h
        cases hrp : getPredicateIri c
            (if strEndsWith fname "Id" then strDropRight fname 2 else fname) with
        | error e0 => rw [hrp] at h; exact Except.noConfusion h
        | ok relPred =>
          rw [hrp] at h
          cases hrec : createFieldQuads c subj tl with
          | error e0 => rw [hrec] at h; exact Except.noConfusion h
          | ok restQ =>
            rw [hrec] at h
            cases hinv : getInversePredicateIri c
                (if strEndsWith fname "Id" then strDropRight fname 2 else fname) with
            | none =>
              simp only [hinv, List.nil_append] at h
              injection h with h1
              refine ⟨relPred, rfl, ?_, ?_⟩
              · rw [← h1]; exact List.mem_cons_self _ _
              · intro q' hq'
                exact absurd hq' (by simp)
            | some q0 =>
              simp only [hinv, List.singleton_append] at h
              injection h with h1
              refine ⟨relPred, rfl, ?_, ?_⟩
              · rw [← h1]; exact List.mem_cons_self _ _
              · intro q' hq'
                injection hq' with h2
                subst h2
                rw [← h1]
                exact List.mem_cons_of_mem _ (List.mem_cons_self _ _)
    · obtain ⟨pre, restQ, hrest, hqs, _⟩ := createFieldQuads_step h
      obtain ⟨relPred, h1, h2, h3⟩ := ih hrest ht hid hrel
      subst hqs
      exact ⟨relPred, h1, List.mem_append_right _ h2,
        fun q' hq' => List.mem_append_right _ (h3 q' hq')⟩

/-- C6: for every successful create whose input has a non-`id`
string-valued field `f` that ends in `Id` (relationship `r` = `f` minus
the suffix) or is a relationship field, the compiler emits the forward
triple `subject predicate_iri(r_or_f) expand_iri(v)`, and whenever the
inverse table combined with the context yields an inverse predicate `q`,
also the inverse triple `expand_iri(v) q subject`. -/
theorem create_relationship_triples {c : Ctx} {en : String}
    {args : List (String × GqlValue)} {r : Nat → Nat} {subj : Term}
    {quads : List Pattern} {fields : List (String × GqlValue)}
    {fname s : String}
    (h : handleCreate c en args r = .ok (subj, quads))
    (hin : findArg args "input" = some (.object fields))
    (hmem : (fname, GqlValue.str s) ∈ fields)
    (hid : fname ≠ "id")
    (hrel : (strEndsWith fname "Id" || isRelationshipField c fname) = true) :
    ∃ relPred,
      getPredicateIri c
        (if strEndsWith fname "Id" then strDropRight fname 2 else fname) =
        .ok relPred ∧
      (⟨subj, relPred, .namedNode (expandIri c s)⟩ : Pattern) ∈ quads ∧
      ∀ q', getInversePredicateIri c
          (if strEndsWith fname "Id" then strDropRight fname 2 else fname) =
          some q' →
        (⟨.namedNode (expandIri c s), q', subj⟩ : Pattern) ∈ quads := by
  obtain ⟨fields', tIri, fq, hin', hty, hcs, hq, hquads⟩ := handleCreate_inv h
  rw [hin] at hin'
  injection hin' with h1
  injection h1 with h2
  subst h2
  subst hquads
  obtain ⟨relPred, ha, hb, hc2⟩ := createFieldQuads_rel_mem hq hmem hid hrel
  exact ⟨relPred, ha, List.mem_cons_of_mem _ hb,
    fun q' hq' => List.mem_cons_of_mem _ (hc2 q' hq')⟩

/-- C6 witness: the scenario of the C2 context — `productId` strips to
`product`, whose inverse `reviews` resolves — emits both the forward and
the inverse triple. -/
theorem create_relationship_triples_witness :
    (⟨.namedNode "http://x/1", .namedNode "http://s/product",
        .namedNode "http://x/p"⟩ : Pattern) ∈
      [⟨.namedNode "http://x/1", rdfTypeTerm, .namedNode "http://s/Thing"⟩,
       ⟨.namedNode "http://x/1", .namedNode "http://s/product", .namedNode "http://x/p"⟩,
       ⟨.namedNode "http://x/p", .namedNode "http://s/reviews", .namedNode "http://x/1"⟩] ∧
    (⟨.namedNode "http://x/p", .namedNode "http://s/reviews",
        .namedNode "http://x/1"⟩ : Pattern) ∈
      [⟨.namedNode "http://x/1", rdfTypeTerm, .namedNode "http://s/Thing"⟩,
       ⟨.namedNode "http://x/1", .namedNode "http://s/product", .namedNode "http://x/p"⟩,
       ⟨.namedNode "http://x/p", .namedNode "http://s/reviews", .namedNode "http://x/1"⟩] := by
  obtain ⟨rp, ha, hb, hc⟩ := @create_relationship_triples ctxC2 "Thing" argsC2
    (fun _ => 0) (.namedNode "http://x/1")
    [⟨.namedNode "http://x/1", rdfTypeTerm, .namedNode "http://s/Thing"⟩,
     ⟨.namedNode "http://x/1", .namedNode "http://s/product", .namedNode "http://x/p"⟩,
     ⟨.namedNode "http://x/p", .namedNode "http://s/reviews", .namedNode "http://x/1"⟩]
    [("id", .str "http://x/1"), ("productId", .str "http://x/p")]
    "productId" "http://x/p" (by rfl) (by rfl)
    (List.mem_cons_of_mem _ (List.mem_cons_self _ _)) (by decide) (by decide)
  have h0 : getPredicateIri ctxC2
      (if strEndsWith "productId" "Id" then strDropRight "productId" 2
       else "productId") = .ok (.namedNode "http://s/product") := by rfl
  rw [h0] at ha
  injection ha with h1
  subst h1
  exact ⟨hb, hc _ (by rfl)⟩


/-! ## Claim C4: variables in delete/insert are bound in where -/

theorem termNoVarOf {t : Term}
    (h : (∃ i, t = .namedNode i) ∨ ∃ lv d, t = .literal lv d) :
    (match t with
     | Term.variable nm => some nm
     | _ => none) = (none : Option String) := by
  rcases h with ⟨i, rfl⟩ | ⟨lv, d, rfl⟩ <;> rfl

theorem patVars_eq_nil {q : Pattern}
    (h1 : (∃ i, q.s = .namedNode i) ∨ ∃ lv d, q.s = .literal lv d)
    (h2 : (∃ i, q.p = .namedNode i) ∨ ∃ lv d, q.p = .literal lv d)
    (h3 : (∃ i, q.o = .namedNode i) ∨ ∃ lv d, q.o = .literal lv d) :
    patVars q = [] := by
  obtain ⟨s, p, o⟩ := q
  dsimp only at h1 h2 h3
  rcases h1 with ⟨i1, rfl⟩ | ⟨lv1, d1, rfl⟩ <;>
    rcases h2 with ⟨i2, rfl⟩ | ⟨lv2, d2, rfl⟩ <;>
      rcases h3 with ⟨i3, rfl⟩ | ⟨lv3, d3, rfl⟩ <;> rfl

theorem varOccurs_nil_of {n : String} {ps : List Pattern}
    (h : ∀ q ∈ ps, patVars q = []) : varOccurs n ps = false := by
  rw [varOccurs]
  rw [List.any_eq_false]
  intro q hq
  simp [h q hq]

theorem updateFieldQuads_shape {c : Ctx} {subj : Term} :
    ∀ {fs : List (String × GqlValue)} {ins del whr : List Pattern},
      updateFieldQuads c subj fs = .ok (ins, del, whr) →
      del = whr ∧ ins.length = del.length ∧
      ∀ p ∈ ins, p.s = subj ∧ (∃ i, p.p = .namedNode i) ∧
        ∃ lv d, p.o = .literal lv d := by
  intro fs
  induction fs with
  | nil =>
    intro ins del whr h
    injection h with h1
    rw [Prod.mk.injEq] at h1
    obtain ⟨h2, h3⟩ := h1
    rw [Prod.mk.injEq] at h3
    obtain ⟨h4, h5⟩ := h3
    subst h2; subst h4; subst h5
    exact ⟨rfl, rfl, by simp⟩
  | cons hd tl ih =>
    intro ins del whr h
    obtain ⟨fname, v⟩ := hd
    simp only [updateFieldQuads] at h
    by_cases hid : fname = "id"
    · rw [if_pos hid] at h; exact Except.noConfusion h
    · rw [if_neg hid] at h
      cases hp : getPredicateIri c fname with
      | error e0 => rw [hp] at h; exact Except.noConfusion h
      | ok pred =>
        rw [hp] at h
        cases hv : parseValueNode v with
        | error e0 => rw [hv] at h; exact Except.noConfusion h
        | ok nv =>
          rw [hv] at h
          cases hrec : updateFieldQuads c subj tl with
          | error e0 => rw [hrec] at h; exact Except.noConfusion h
          | ok trio =>
            obtain ⟨ins', del', whr'⟩ := trio
            simp only [hrec] at h
            injection h with h1
            rw [Prod.mk.injEq] at h1
            obtain ⟨h2, h3⟩ := h1
            rw [Prod.mk.injEq] at h3
            obtain ⟨h4, h5⟩ := h3
            subst h2; subst h4; subst h5
            obtain ⟨ha, hb, hc⟩ := ih hrec
            refine ⟨by rw [ha], by simp [hb], ?_⟩
            intro p hpm
            rcases List.mem_cons.mp hpm with he | ht
            · subst he
              obtain ⟨i, hi, _⟩ := getPredicateIri_ok_inv hp
              exact ⟨rfl, ⟨i, hi⟩, parseValueNode_ok_lit hv⟩
            · exact hc p ht

theorem handleUpdate_inv {c : Ctx} {subj : Term} {en : String}
    {args : List (String × GqlValue)} {ins del whr : List Pattern}
    (h : handleUpdate c subj en args = .ok (ins, del, whr)) :
    ∃ fields, findArg args "input" = some (.object fields) ∧
      updateFieldQuads c subj fields = .ok (ins, del, whr) ∧ ins ≠ [] := by
  unfold handleUpdate at h
  cases hin : findArg args "input" with
  | none => rw [hin] at h; exact Except.noConfusion h
  | some v =>
    cases v with
    | str s => rw [hin] at h; exact Except.noConfusion h
    | int s => rw [hin] at h; exact Except.noConfusion h
    | float s => rw [hin] at h; exact Except.noConfusion h
    | bool b => rw [hin] at h; exact Except.noConfusion h
    | list vs => rw [hin] at h; exact Except.noConfusion h
    | null => rw [hin] at h; exact Except.noConfusion h
    | enum s => rw [hin] at h; exact Except.noConfusion h
    | object fields =>
      simp only [hin] at h
      cases hq : updateFieldQuads c subj fields with
      | error e0 => rw [hq] at h; exact Except.noConfusion h
      | ok trio =>
        obtain ⟨i0, d0, w0⟩ := trio
        simp only [hq] at h
        split at h
        · exact Except.noConfusion h
        · injection h with h1
          rw [Prod.mk.injEq] at h1
          obtain ⟨h2, h3⟩ := h1
          rw [Prod.mk.injEq] at h3
          obtain ⟨h4, h5⟩ := h3
          subst h2; subst h4; subst h5
          have hlen : ¬(i0.length = 0) := by assumption
          exact ⟨fields, rfl, hq, fun hnil => hlen (by rw [hnil]; rfl)⟩

/-- C4: in every successfully compiled mutation, each pattern of the
delete clause also occurs in the where clause (so in particular each
update delete pattern `subject predicate_iri(f) ?old_f` reappears there),
and every variable occurring in delete or insert occurs in where. -/
theorem convert_variables_bound {c : Ctx} {r : Nat → Nat}
    {mutationName : String} {args : List (String × GqlValue)}
    {ops : CompositeUpdate}
    (h : convert c r mutationName args = .ok ops) :
    ∀ di ∈ ops,
      (∀ p ∈ di.del.getD [], p ∈ di.whr.getD []) ∧
      ∀ n, (varOccurs n (di.del.getD []) || varOccurs n (di.ins.getD [])) = true →
        varOccurs n (di.whr.getD []) = true := by
  unfold convert at h
  by_cases hcr : strStartsWith mutationName "create" = true
  · rw [if_pos hcr] at h
    cases hhc : handleCreate c (strDrop mutationName 6) args r with
    | error e0 => rw [hhc] at h; exact Except.noConfusion h
    | ok y =>
      obtain ⟨subj, quads⟩ := y
      obtain ⟨fields, tIri, fq, hin, hty, hcs, hq, hquads⟩ := handleCreate_inv hhc
      subst hquads
      simp only [hhc] at h
      rw [if_pos (by simp)] at h
      injection h with h1
      subst h1
      intro di hdi
      rw [List.mem_singleton] at hdi
      subst hdi
      obtain ⟨si, hsubj⟩ := createSubject_ok_named hcs
      obtain ⟨ti, hti⟩ := getTypeIri_ok_named hty
      have hnov : ∀ q ∈ (⟨subj, rdfTypeTerm, tIri⟩ : Pattern) :: fq, patVars q = [] := by
        intro q hqm
        rcases List.mem_cons.mp hqm with he | ht
        · subst he
          exact patVars_eq_nil (Or.inl ⟨si, hsubj⟩) (Or.inl ⟨_, rfl⟩) (Or.inl ⟨ti, hti⟩)
        · obtain ⟨⟨n0, hn0⟩, _, hqs, hqo⟩ := createFieldQuads_forall hq q ht
          obtain ⟨i, hi, _⟩ := getPredicateIri_ok_inv hn0
          refine patVars_eq_nil ?_ (Or.inl ⟨i, hi⟩) ?_
          · rcases hqs with hl | hr
            · exact Or.inl ⟨si, by rw [hl, hsubj]⟩
            · exact Or.inl hr
          · rcases hqo with hl | hr | hr2
            · exact Or.inl ⟨si, by rw [hl, hsubj]⟩
            · exact Or.inl hr
            · exact Or.inr hr2
      refine ⟨by intro p hp; simp at hp, ?_⟩
      intro n hn
      simp only [Option.getD_none, Option.getD_some] at hn
      rw [varOccurs_nil_of hnov] at hn
      simp [varOccurs] at hn
  · rw [if_neg hcr] at h
    by_cases hup : strStartsWith mutationName "update" = true
    · rw [if_pos hup] at h
      cases hs : subjectFromIdArg c "update" args with
      | error e0 => rw [hs] at h; exact Except.noConfusion h
      | ok subj =>
        simp only [hs] at h
        cases hhu : handleUpdate c subj (strDrop mutationName 6) args with
        | error e0 => rw [hhu] at h; exact Except.noConfusion h
        | ok trio =>
          obtain ⟨i0, d0, w0⟩ := trio
          simp only [hhu] at h
          obtain ⟨fields, hin, hq, hne⟩ := handleUpdate_inv hhu
          obtain ⟨ha, hb, hc2⟩ := updateFieldQuads_shape hq
          obtain ⟨si, hsubj⟩ := subjectFromIdArg_ok_named hs
          have hi0 : i0.length > 0 := by
            cases hi : i0 with
            | nil => exact absurd hi hne
            | cons a l => simp
          have hd0 : d0.length > 0 := by rw [← hb]; exact hi0
          rw [if_pos (by simp [hi0, hd0])] at h
          injection h with h1
          subst h1
          intro di hdi
          rw [List.mem_singleton] at hdi
          subst hdi
          simp only [if_pos hd0, if_pos hi0, Option.getD_some]
          have hnoins : ∀ q ∈ i0, patVars q = [] := by
            intro q hqm
            obtain ⟨hqs, ⟨i, hip⟩, lv, d, hlo⟩ := hc2 q hqm
            exact patVars_eq_nil (Or.inl ⟨si, by rw [hqs, hsubj]⟩)
              (Or.inl ⟨i, hip⟩) (Or.inr ⟨lv, d, hlo⟩)
          refine ⟨by rw [ha]; intro p hp; exact hp, ?_⟩
          intro n hn
          rw [varOccurs_nil_of hnoins, Bool.or_false, ha] at hn
          exact hn
    · rw [if_neg hup] at h
      by_cases hdel : strStartsWith mutationName "delete" = true
      · rw [if_pos hdel] at h
        cases hs : subjectFromIdArg c "delete" args with
        | error e0 => rw [hs] at h; exact Except.noConfusion h
        | ok subj =>
          simp only [hs, handleDelete] at h
          injection h with h1
          subst h1
          intro di hdi
          rw [List.mem_singleton] at hdi
          subst hdi
          refine ⟨by intro p hp; exact hp, ?_⟩
          intro n hn
          simp only [Option.getD_none, Option.getD_some] at hn ⊢
          rw [Bool.or_eq_true] at hn
          rcases hn with h1 | h1
          · exact h1
          · rw [varOccurs] at h1; simp at h1
      · rw [if_neg hdel] at h
        exact Except.noConfusion h

/-- C4 witness: in a concrete one-field update, the delete pattern with
its `?old_name` variable reappears in the where clause. -/
theorem convert_variables_bound_witness :
    (⟨.namedNode "http://x/1", .namedNode "http://s/name",
        .variable "old_name"⟩ : Pattern) ∈
      ((⟨some [⟨.namedNode "http://x/1", .namedNode "http://s/name", .variable "old_name"⟩],
         some [⟨.namedNode "http://x/1", .namedNode "http://s/name",
           .literal "Alicia" xsdString⟩],
         some [⟨.namedNode "http://x/1", .namedNode "http://s/name",
           .variable "old_name"⟩]⟩ : DeleteInsert).whr.getD []) :=
  ((@convert_variables_bound ctxC7 (fun _ => 0) "updateThing" argsC4w
      [⟨some [⟨.namedNode "http://x/1", .namedNode "http://s/name", .variable "old_name"⟩],
        some [⟨.namedNode "http://x/1", .namedNode "http://s/name",
          .literal "Alicia" xsdString⟩],
        some [⟨.namedNode "http://x/1", .namedNode "http://s/name",
          .variable "old_name"⟩]⟩]
      (by rfl))
    _ (List.mem_cons_self _ _)).1 _ (by decide)


/-! ## Claim C5: expand_iri -/

/-- C5: for every input string, the source's `expandIri` agrees with the
specification's description of it — verbatim pass-through for `http(s)`
IRIs, otherwise `@base` (trailing slash dropped) + "/" + value even when
the value contains a colon, otherwise the value unchanged.  A defined
`@base` is a non-empty string (the source treats an empty `@base` like an
absent one, by JavaScript falsiness). -/
theorem expandIri_matches_spec (c : Ctx) (v : String) (hbase : c.base ≠ some "") :
    expandIri c v = expandIriSpec c v := by
  unfold expandIri expandIriSpec
  cases hb : c.base with
  | none => rfl
  | some base =>
    have hb' : ¬(base = "") := fun h => hbase (by rw [hb, h])
    simp [hb']

/-- C5 witness: `ex:user1` against base `http://example.org/` expands to
`http://example.org/ex:user1` (the CURIE-looking value is concatenated,
not resolved), and source and spec readings agree there. -/
theorem expandIri_matches_spec_witness :
    expandIri ctxExpandExample "ex:user1" = expandIriSpec ctxExpandExample "ex:user1" ∧
    expandIri ctxExpandExample "ex:user1" = "http://example.org/ex:user1" :=
  ⟨expandIri_matches_spec ctxExpandExample "ex:user1" (by decide), by decide⟩

/-! ## Claim C8: client error wrapping -/

/-- C8 counterexample: when the engine call fails with a non-typed error,
`Client.query` wraps it with code `EXECUTION_ERROR`, not `QUERY_ERROR` as
the claim states. -/
theorem clientQuery_wrap_code_counterexample :
    clientQueryEngineCall (α := Unit) (.rawErr "boom") =
      .thrown "Query execution failed: boom" "EXECUTION_ERROR" ∧
    "EXECUTION_ERROR" ≠ "QUERY_ERROR" :=
  ⟨rfl, by decide⟩

/-- C8 (amended): typed `QueryEngineError`s propagate unchanged through
both `mutate` and `query`; a non-typed engine failure is wrapped by
`mutate` into a returned GraphQL error coded `MUTATION_ERROR` that keeps
the original error, and by `query` into a thrown `QueryEngineError` coded
`EXECUTION_ERROR` that keeps the cause only inside its message. -/
theorem client_engine_error_wrapping (α : Type) :
    ∀ (m c : String) (v : α),
      clientMutateEngineCall (.ok v) = .success v ∧
      clientMutateEngineCall (α := α) (.typedErr m c) = .thrown m c ∧
      clientMutateEngineCall (α := α) (.rawErr m) =
        .gqlError ("Mutation failed: " ++ m) "MUTATION_ERROR" (some m) ∧
      clientQueryEngineCall (α := α) (.typedErr m c) = .thrown m c ∧
      clientQueryEngineCall (α := α) (.rawErr m) =
        .thrown ("Query execution failed: " ++ m) "EXECUTION_ERROR" :=
  fun _ _ _ => ⟨rfl, rfl, rfl, rfl, rfl⟩

/-! ## Claim C9: validateQuery is never consulted -/

/-- C9: `QueryEngineSparqlEndpoint.query` returns the same result for any
two values of `options.validateQuery` — the option (whose default is
`true`) is never consulted on the query execution path, for every fetch
outcome and every setting of the remaining options. -/
theorem endpointQuery_ignores_validateQuery {β : Type} :
    ∀ (f : FetchOutcome β) (t m : Option Nat) (b₁ b₂ : Option Bool),
      endpointQuery f (some ⟨t, m, b₁⟩) = endpointQuery f (some ⟨t, m, b₂⟩) := by
  intro f t m b₁ b₂
  cases f <;> rfl

/-! ## Claim C10: QueryCache eviction and size bound -/

theorem keys_filter_ne {α : Type} (l : List (String × CacheEntry α)) (k : String) :
    (l.filter (fun p => p.1 ≠ k)).map (fun p => p.1) =
      (l.map (fun p => p.1)).filter (fun x => x ≠ k) := by
  induction l with
  | nil => rfl
  | cons hd tl ih =>
    by_cases hh : hd.1 = k <;> simp_all [List.filter_cons]

theorem keys_cacheDelete {α : Type} (k : String) (s : CacheState α) :
    (cacheDelete k s).keys = s.keys.filter (fun x => x ≠ k) :=
  keys_filter_ne s.entries k

theorem mem_keys_cacheDelete {α : Type} {k' k : String} {s : CacheState α} :
    k' ∈ (cacheDelete k s).keys ↔ k' ∈ s.keys ∧ k' ≠ k := by
  rw [keys_cacheDelete]
  simp [List.mem_filter]

theorem size_eq_keys_length {α : Type} (s : CacheState α) :
    s.size = s.keys.length := by
  simp [CacheState.size, CacheState.keys]

theorem maxEntries_cacheDelete {α : Type} (k : String) (s : CacheState α) :
    (cacheDelete k s).maxEntries = s.maxEntries := rfl

theorem goodCache_cacheDelete {α : Type} {s : CacheState α}
    (hg : goodCache s) (k : String) : goodCache (cacheDelete k s) := by
  obtain ⟨hnk, hno, hko, hok, hsz, hmx⟩ := hg
  refine ⟨?_, ?_, ?_, ?_, ?_, hmx⟩
  · rw [keys_cacheDelete]; exact hnk.filter _
  · exact hno.erase k
  · intro k' hk'
    rw [mem_keys_cacheDelete] at hk'
    show k' ∈ s.accessOrder.erase k
    rw [hno.mem_erase_iff]
    exact ⟨hk'.2, hko k' hk'.1⟩
  · intro k' hk'
    replace hk' : k' ∈ s.accessOrder.erase k := hk'
    rw [hno.mem_erase_iff] at hk'
    rw [mem_keys_cacheDelete]
    exact ⟨hok k' hk'.2, hk'.1⟩
  · rw [size_eq_keys_length, keys_cacheDelete]
    calc (s.keys.filter (fun x => x ≠ k)).length ≤ s.keys.length :=
          List.length_filter_le _ _
      _ = s.size := (size_eq_keys_length s).symm
      _ ≤ s.maxEntries := hsz

theorem length_filter_ne_of_nodup {k : String} :
    ∀ (l : List String), l.Nodup → k ∈ l →
      (l.filter (fun x => x ≠ k)).length = l.length - 1 := by
  intro l
  induction l with
  | nil => intro _ h; simp at h
  | cons hd tl ih =>
    intro hnd hmem
    rw [List.nodup_cons] at hnd
    rcases List.mem_cons.mp hmem with he | ht
    · subst he
      simp only [List.filter_cons]
      rw [if_neg (by simp)]
      rw [List.filter_eq_self.mpr]
      · simp
      · intro a ha
        simp only [decide_eq_true_eq]
        intro hak
        exact hnd.1 (hak ▸ ha)
    · by_cases he2 : hd = k
      · exact absurd ht (he2 ▸ hnd.1)
      · simp only [List.filter_cons]
        rw [if_pos (by simp [he2])]
        have h1 := ih hnd.2 ht
        have h2 := List.length_pos_of_mem ht
        simp only [List.length_cons]
        omega

theorem size_cacheDelete_of_mem {α : Type} {k : String} {s : CacheState α}
    (hnk : s.keys.Nodup) (hk : k ∈ s.keys) :
    (cacheDelete k s).size = s.size - 1 := by
  rw [size_eq_keys_length, keys_cacheDelete,
    length_filter_ne_of_nodup s.keys hnk hk, size_eq_keys_length]

theorem keys_updateAccessOrder {α : Type} (k : String) (s : CacheState α) :
    (updateAccessOrder k s).keys = s.keys := rfl

theorem goodCache_updateAccessOrder {α : Type} {s : CacheState α}
    (hg : goodCache s) {k : String} (hk : k ∈ s.keys) :
    goodCache (updateAccessOrder k s) := by
  obtain ⟨hnk, hno, hko, hok, hsz, hmx⟩ := hg
  refine ⟨hnk, ?_, ?_, ?_, hsz, hmx⟩
  · rw [updateAccessOrder, List.nodup_append]
    refine ⟨hno.erase k, List.nodup_singleton k, ?_⟩
    intro x hx hx1
    rw [List.mem_singleton] at hx1
    subst hx1
    exact absurd ((hno.mem_erase_iff).mp hx).1 (by simp)
  · intro k' hk'
    show k' ∈ s.accessOrder.erase k ++ [k]
    rw [List.mem_append, List.mem_singleton]
    by_cases he : k' = k
    · exact Or.inr he
    · exact Or.inl ((hno.mem_erase_iff).mpr ⟨he, hko k' hk'⟩)
  · intro k' hk'
    rw [updateAccessOrder] at hk'
    simp only [List.mem_append, List.mem_singleton] at hk'
    rcases hk' with h1 | h1
    · exact hok k' ((hno.mem_erase_iff).mp h1).2
    · subst h1; exact hk

theorem maxEntries_evictOldest {α : Type} (s : CacheState α) :
    (evictOldest s).maxEntries = s.maxEntries := by
  rw [evictOldest]
  split <;> rfl

theorem goodCache_evictOldest {α : Type} {s : CacheState α}
    (hg : goodCache s) : goodCache (evictOldest s) := by
  rw [evictOldest]
  split
  · exact hg
  · exact goodCache_cacheDelete hg _

theorem keys_map_overwrite {α : Type} (l : List (String × CacheEntry α))
    (k : String) (e : CacheEntry α) :
    (l.map (fun p => if p.1 = k then (k, e) else p)).map (fun p => p.1) =
      l.map (fun p => p.1) := by
  induction l with
  | nil => rfl
  | cons hd tl ih =>
    simp only [List.map_cons]
    by_cases hh : hd.1 = k
    · rw [if_pos hh]; simp [hh, ih]
    · rw [if_neg hh]; simp [ih]

theorem anyKey_iff {α : Type} (l : List (String × CacheEntry α)) (k : String) :
    l.any (fun p => p.1 = k) = true ↔ k ∈ l.map (fun p => p.1) := by
  simp [List.any_eq_true, List.mem_map]

theorem mem_keys_mapSet {α : Type} (s1 : CacheState α) (k : String)
    (e : CacheEntry α) (k' : String) :
    k' ∈ (mapSet s1.entries k e).map (fun p => p.1) ↔
      (k' ∈ s1.keys ∨ k' = k) := by
  by_cases hk : s1.entries.any (fun p => p.1 = k) = true
  · rw [mapSet, if_pos hk, keys_map_overwrite]
    have hkm := (anyKey_iff _ _).mp hk
    constructor
    · exact Or.inl
    · rintro (h | rfl)
      · exact h
      · exact hkm
  · rw [mapSet, if_neg hk, List.map_append]
    simp [CacheState.keys, List.mem_append]

theorem nodup_keys_mapSet {α : Type} {s1 : CacheState α}
    (hnk : s1.keys.Nodup) (k : String) (e : CacheEntry α) :
    ((mapSet s1.entries k e).map (fun p => p.1)).Nodup := by
  by_cases hk : s1.entries.any (fun p => p.1 = k) = true
  · rw [mapSet, if_pos hk, keys_map_overwrite]; exact hnk
  · rw [mapSet, if_neg hk, List.map_append]
    simp only [List.map_cons, List.map_nil]
    rw [List.nodup_append]
    refine ⟨hnk, List.nodup_singleton k, ?_⟩
    intro x hx hx2
    rw [List.mem_singleton] at hx2
    subst hx2
    exact hk ((anyKey_iff _ _).mpr hx)

theorem size_mapSet_present {α : Type} {s1 : CacheState α} (k : String)
    (e : CacheEntry α) (hk : s1.entries.any (fun p => p.1 = k) = true) :
    (mapSet s1.entries k e).length = s1.entries.length := by
  rw [mapSet, if_pos hk, List.length_map]

theorem size_mapSet_absent {α : Type} {s1 : CacheState α} (k : String)
    (e : CacheEntry α) (hk : ¬s1.entries.any (fun p => p.1 = k) = true) :
    (mapSet s1.entries k e).length = s1.entries.length + 1 := by
  rw [mapSet, if_neg hk, List.length_append]
  rfl

/-- The write-and-touch tail of `cacheSet`, applied to an already evicted
(or small enough) state, preserves the invariant. -/
theorem goodCache_set_core {α : Type} {s1 : CacheState α} (hg : goodCache s1)
    (k : String) (e : CacheEntry α) (hroom : s1.size + 1 ≤ s1.maxEntries) :
    goodCache (updateAccessOrder k { s1 with entries := mapSet s1.entries k e }) := by
  obtain ⟨hnk, hno, hko, hok, hsz, hmx⟩ := hg
  have hkeysmem : ∀ k',
      k' ∈ (updateAccessOrder k { s1 with entries := mapSet s1.entries k e }).keys ↔
        (k' ∈ s1.keys ∨ k' = k) :=
    fun k' => mem_keys_mapSet s1 k e k'
  have hordermem : ∀ k',
      k' ∈ (updateAccessOrder k { s1 with entries := mapSet s1.entries k e }).accessOrder ↔
        (k' ∈ s1.accessOrder ∨ k' = k) := by
    intro k'
    show k' ∈ s1.accessOrder.erase k ++ [k] ↔ _
    rw [List.mem_append, List.mem_singleton, hno.mem_erase_iff]
    constructor
    · rintro (⟨_, h2⟩ | h3)
      · exact Or.inl h2
      · exact Or.inr h3
    · rintro (h1 | h1)
      · by_cases he : k' = k
        · exact Or.inr he
        · exact Or.inl ⟨he, h1⟩
      · exact Or.inr h1
  refine ⟨?_, ?_, ?_, ?_, ?_, hmx⟩
  · show ((mapSet s1.entries k e).map (fun p => p.1)).Nodup
    exact nodup_keys_mapSet hnk k e
  · show (s1.accessOrder.erase k ++ [k]).Nodup
    rw [List.nodup_append]
    refine ⟨hno.erase k, List.nodup_singleton k, ?_⟩
    intro x hx hx2
    rw [List.mem_singleton] at hx2
    subst hx2
    exact absurd ((hno.mem_erase_iff).mp hx).1 (by simp)
  · intro k' h'
    rw [hkeysmem k'] at h'
    rw [hordermem k']
    rcases h' with h1 | h1
    · exact Or.inl (hko k' h1)
    · exact Or.inr h1
  · intro k' h'
    rw [hordermem k'] at h'
    rw [hkeysmem k']
    rcases h' with h1 | h1
    · exact Or.inl (hok k' h1)
    · exact Or.inr h1
  · show (mapSet s1.entries k e).length ≤ s1.maxEntries
    by_cases hk2 : s1.entries.any (fun p => p.1 = k) = true
    · rw [size_mapSet_present k e hk2]; exact le_trans (Nat.le_succ _) hroom
    · rw [size_mapSet_absent k e hk2]; exact hroom

/-- `cacheSet` unfolded into eviction, write and touch. -/
theorem cacheSet_eq_core {α : Type} (now : Nat) (k : String) (v : α)
    (ttl : Option Nat) (s : CacheState α) :
    cacheSet now k v ttl s =
      updateAccessOrder k
        { (if s.size ≥ s.maxEntries then evictOldest s else s) with
          entries := mapSet
            (if s.size ≥ s.maxEntries then evictOldest s else s).entries k
            (cacheSetEntry now v ttl s.defaultTtl) } := by
  rfl

theorem evictOldest_eq_delete {α : Type} {s : CacheState α} {h0 : String}
    (hhead : s.accessOrder.head? = some h0) :
    evictOldest s = cacheDelete h0 s := by
  cases hacc : s.accessOrder with
  | nil => rw [hacc] at hhead; exact Option.noConfusion hhead
  | cons a rest =>
    rw [hacc] at hhead
    injection hhead with h1
    subst h1
    unfold evictOldest
    rw [hacc]

theorem evictOldest_head_facts {α : Type} {s : CacheState α} {h0 : String}
    (hg : goodCache s) (hhead : s.accessOrder.head? = some h0) :
    (evictOldest s).size = s.size - 1 ∧ h0 ∉ (evictOldest s).keys := by
  have he := evictOldest_eq_delete hhead
  have hmem0 : h0 ∈ s.accessOrder := by
    cases hacc : s.accessOrder with
    | nil => rw [hacc] at hhead; exact Option.noConfusion hhead
    | cons a rest =>
      rw [hacc] at hhead
      injection hhead with h1
      subst h1
      exact List.mem_cons_self _ _
  have hkey0 : h0 ∈ s.keys := hg.2.2.2.1 h0 hmem0
  constructor
  · rw [he]; exact size_cacheDelete_of_mem hg.1 hkey0
  · rw [he, mem_keys_cacheDelete]
    rintro ⟨_, hne2⟩
    exact hne2 rfl

theorem accessOrder_ne_nil_of_full {α : Type} {s : CacheState α}
    (hg : goodCache s) (hge : s.size ≥ s.maxEntries) :
    ∃ h0, s.accessOrder.head? = some h0 := by
  have hpos : 0 < s.size := lt_of_lt_of_le hg.2.2.2.2.2 hge
  rw [size_eq_keys_length] at hpos
  obtain ⟨k0, hk0⟩ := List.exists_mem_of_length_pos hpos
  have hord := hg.2.2.1 k0 hk0
  cases hacc : s.accessOrder with
  | nil => rw [hacc] at hord; simp at hord
  | cons a rest => exact ⟨a, rfl⟩

theorem maxEntries_cacheSet {α : Type} (now : Nat) (k : String) (v : α)
    (ttl : Option Nat) (s : CacheState α) :
    (cacheSet now k v ttl s).maxEntries = s.maxEntries := by
  rw [cacheSet_eq_core]
  show (if s.size ≥ s.maxEntries then evictOldest s else s).maxEntries = s.maxEntries
  split
  · exact maxEntries_evictOldest s
  · rfl

theorem goodCache_cacheSet {α : Type} {s : CacheState α} (hg : goodCache s)
    (now : Nat) (k : String) (v : α) (ttl : Option Nat) :
    goodCache (cacheSet now k v ttl s) := by
  rw [cacheSet_eq_core]
  by_cases hge : s.size ≥ s.maxEntries
  · obtain ⟨h0, hhead⟩ := accessOrder_ne_nil_of_full hg hge
    obtain ⟨hsz1, _⟩ := evictOldest_head_facts hg hhead
    have hg1 := goodCache_evictOldest hg
    have hroom : (evictOldest s).size + 1 ≤ (evictOldest s).maxEntries := by
      rw [hsz1, maxEntries_evictOldest]
      have h1 := hg.2.2.2.2.1
      have h2 := hg.2.2.2.2.2
      omega
    simp only [if_pos hge]
    exact goodCache_set_core hg1 k _ hroom
  · have hlt : s.size < s.maxEntries := lt_of_not_ge hge
    simp only [if_neg hge]
    exact goodCache_set_core hg k _ (by omega)

theorem goodCache_cacheGet {α : Type} {s : CacheState α} (hg : goodCache s)
    (now : Nat) (k : String) :
    goodCache (cacheGet now k s).2 ∧ (cacheGet now k s).2.maxEntries = s.maxEntries := by
  cases hf : s.entries.find? (fun p => p.1 = k) with
  | none =>
    have h1 : cacheGet now k s = (none, s) := by unfold cacheGet; rw [hf]
    rw [h1]
    exact ⟨hg, rfl⟩
  | some p =>
    by_cases hexp : now > p.2.expiresAt
    · have h1 : cacheGet now k s = (none, cacheDelete k s) := by
        unfold cacheGet; simp only [hf]; rw [if_pos hexp]
      rw [h1]
      exact ⟨goodCache_cacheDelete hg k, rfl⟩
    · have h1 : cacheGet now k s = (some p.2.value, updateAccessOrder k s) := by
        unfold cacheGet; simp only [hf]; rw [if_neg hexp]
      rw [h1]
      refine ⟨goodCache_updateAccessOrder hg ?_, rfl⟩
      have hm := List.mem_of_find?_eq_some hf
      have hk : p.1 = k := by simpa using List.find?_some hf
      rw [← hk]
      exact List.mem_map_of_mem _ hm

theorem goodCache_foldl_delete {α : Type} :
    ∀ (ks : List String) (s : CacheState α), goodCache s →
      goodCache (ks.foldl (fun acc k => cacheDelete k acc) s) ∧
      (ks.foldl (fun acc k => cacheDelete k acc) s).maxEntries = s.maxEntries := by
  intro ks
  induction ks with
  | nil => intro s hg; exact ⟨hg, rfl⟩
  | cons hd tl ih =>
    intro s hg
    simp only [List.foldl_cons]
    obtain ⟨h1, h2⟩ := ih (cacheDelete hd s) (goodCache_cacheDelete hg hd)
    exact ⟨h1, by rw [h2]; rfl⟩

theorem goodCache_cacheClear {α : Type} {s : CacheState α} (hg : goodCache s) :
    goodCache (cacheClear s) ∧ (cacheClear s).maxEntries = s.maxEntries := by
  refine ⟨⟨?_, ?_, ?_, ?_, ?_, hg.2.2.2.2.2⟩, rfl⟩
  · show (([] : List (String × CacheEntry α)).map (fun p => p.1)).Nodup
    simp
  · show ([] : List String).Nodup
    simp
  · intro k hk
    simp [cacheClear, CacheState.keys] at hk
  · intro k hk
    simp [cacheClear] at hk
  · show ([] : List (String × CacheEntry α)).length ≤ s.maxEntries
    simp

theorem goodCache_cacheCleanup {α : Type} {s : CacheState α} (hg : goodCache s)
    (now : Nat) :
    goodCache (cacheCleanup now s) ∧ (cacheCleanup now s).maxEntries = s.maxEntries :=
  goodCache_foldl_delete _ s hg

theorem goodCache_cacheStep {α : Type} {s : CacheState α} (hg : goodCache s)
    (op : CacheOp α) :
    goodCache (cacheStep s op) ∧ (cacheStep s op).maxEntries = s.maxEntries := by
  cases op with
  | get now k => exact goodCache_cacheGet hg now k
  | set now k v ttl =>
    exact ⟨goodCache_cacheSet hg now k v ttl, maxEntries_cacheSet now k v ttl s⟩
  | del k => exact ⟨goodCache_cacheDelete hg k, rfl⟩
  | clear => exact goodCache_cacheClear hg
  | cleanup now => exact goodCache_cacheCleanup hg now

theorem goodCache_cacheRun {α : Type} :
    ∀ (ops : List (CacheOp α)) (s : CacheState α), goodCache s →
      goodCache (cacheRun s ops) ∧ (cacheRun s ops).maxEntries = s.maxEntries := by
  intro ops
  induction ops with
  | nil => intro s hg; exact ⟨hg, rfl⟩
  | cons hd tl ih =>
    intro s hg
    obtain ⟨h1, h2⟩ := goodCache_cacheStep hg hd
    obtain ⟨h3, h4⟩ := ih (cacheStep s hd) h1
    exact ⟨h3, by rw [cacheRun, List.foldl_cons, ← cacheRun, h4, h2]⟩

theorem goodCache_cacheInit (α : Type) (m t : Option Nat) :
    goodCache (cacheInit α m t) := by
  refine ⟨?_, ?_, ?_, ?_, ?_, ?_⟩
  · show (([] : List (String × CacheEntry α)).map (fun p => p.1)).Nodup
    simp
  · show ([] : List String).Nodup
    simp
  · intro k hk
    simp [cacheInit, CacheState.keys] at hk
  · intro k hk
    simp [cacheInit] at hk
  · show ([] : List (String × CacheEntry α)).length ≤ _
    simp
  · exact le_max_left _ _

/-- C10: (i) starting from a fresh cache, no sequence of get/set/delete/
clear/cleanup operations ever pushes the size above `maxEntries`; (ii) at
capacity, `set` first evicts the least-recently-accessed key `h0` — even
when the written key is already present — so `h0` is gone afterwards and
an overwrite at capacity shrinks the cache to `maxEntries - 1`. -/
theorem queryCache_eviction_and_bound {α : Type} :
    (∀ (m t : Option Nat) (ops : List (CacheOp α)),
      (cacheRun (cacheInit α m t) ops).size ≤ (cacheInit α m t).maxEntries) ∧
    (∀ (s : CacheState α) (now : Nat) (k : String) (v : α) (ttl : Option Nat)
        (h0 : String),
      goodCache s → s.size = s.maxEntries → s.accessOrder.head? = some h0 →
      h0 ≠ k →
      h0 ∉ (cacheSet now k v ttl s).keys ∧
      (k ∈ s.keys → (cacheSet now k v ttl s).size = s.maxEntries - 1)) := by
  constructor
  · intro m t ops
    obtain ⟨hg, hmx⟩ := goodCache_cacheRun ops (cacheInit α m t)
      (goodCache_cacheInit α m t)
    rw [← hmx]
    exact hg.2.2.2.2.1
  · intro s now k v ttl h0 hg hfull hhead hne
    have hge : s.size ≥ s.maxEntries := le_of_eq hfull.symm
    obtain ⟨hsz1, hnot⟩ := evictOldest_head_facts hg hhead
    have hdel := evictOldest_eq_delete hhead
    constructor
    · rw [cacheSet_eq_core]
      simp only [if_pos hge]
      intro hmem
      rcases (mem_keys_mapSet (evictOldest s) k _ h0).mp hmem with h1 | h1
      · exact hnot h1
      · exact hne h1
    · intro hkmem
      have hk1 : k ∈ (evictOldest s).keys := by
        rw [hdel, mem_keys_cacheDelete]
        exact ⟨hkmem, fun he2 => hne he2.symm⟩
      rw [cacheSet_eq_core]
      simp only [if_pos hge]
      show (mapSet (evictOldest s).entries k _).length = s.maxEntries - 1
      rw [size_mapSet_present k _ ((anyKey_iff _ _).mpr hk1)]
      show (evictOldest s).size = s.maxEntries - 1
      rw [hsz1, hfull]

/-- C10 witness: a two-entry cache at capacity; overwriting the key `b`
evicts the least-recently-accessed key `a` and shrinks the cache. -/
theorem queryCache_eviction_and_bound_witness :
    "a" ∉ (cacheSet 7 "b" 9 none s0C10).keys ∧
    ("b" ∈ s0C10.keys → (cacheSet 7 "b" 9 none s0C10).size = s0C10.maxEntries - 1) :=
  (queryCache_eviction_and_bound (α := Nat)).2 s0C10 7 "b" 9 none "a"
    (by unfold goodCache; decide) (by rfl) (by rfl) (by decide)


end GLDM
